import Mathlib

/-!
Verification of the transfer-engine and LocalNode-serialization parts of the
MEGA SDK sources (`src/transferslot.cpp`, `src/node.cpp`) against their
natural-language specification.  The C++ code is shallowly embedded: byte
strings become `List Nat` (each element a byte value), machine integers become
`Int`/`Nat` with explicit two's-complement conversion where the width matters,
and the state-machine fragments become pure functions on explicit state
records.  Helper routines of the repository that are not part of the given
sources (the `CacheableWriter`/`CacheableReader` primitives, `chunkmac_map`,
`Base64::atob`, `atoi`) are modelled from the specification text and marked as
such in their doc comments.
-/

namespace MegaSdk

/-- A byte string: each element is intended to be a byte value `< 256`. -/
abbrev Bytes := List Nat

/-! ## Little-endian integer serialization primitives

Modelled from the spec: the transfer-record wire format fixes the field
widths (`size` i64, `fsid` u64, `parent-dbid` u32, `node-handle` 6 bytes,
u16 string lengths); the `CacheableWriter`/`CacheableReader` classes that
implement them are not part of the given sources. -/

/-- `n`-byte little-endian encoding of a natural number (truncating mod `256^n`). -/
def toLE (v : Nat) : Nat → Bytes
  | 0 => []
  | n + 1 => v % 256 :: toLE (v / 256) n

/-- Decode a little-endian byte string to a natural number. -/
def fromLE (bs : Bytes) : Nat :=
  bs.foldr (fun b acc => b + 256 * acc) 0

/-- Two's-complement little-endian encoding of a signed 64-bit value. -/
def writeI64 (v : Int) : Bytes :=
  toLE (v % (2 ^ 64 : Int)).toNat 8

/-- Consume exactly `n` bytes from the front of the stream, failing when the
stream is shorter. -/
def readBytesN (n : Nat) (d : Bytes) : Option (Bytes × Bytes) :=
  if n ≤ d.length then some (d.take n, d.drop n) else none

/-- Read an `n`-byte little-endian unsigned integer. -/
def readU (n : Nat) (d : Bytes) : Option (Nat × Bytes) :=
  (readBytesN n d).map (fun p => (fromLE p.1, p.2))

/-- Read an 8-byte little-endian two's-complement signed integer. -/
def readI64 (d : Bytes) : Option (Int × Bytes) :=
  (readU 8 d).map (fun p =>
    (if p.1 < 2 ^ 63 then (p.1 : Int) else (p.1 : Int) - 2 ^ 64, p.2))

/-- Minimal little-endian byte representation of a natural number
(empty for zero). -/
def natBytes (v : Nat) : Bytes :=
  if v = 0 then [] else v % 256 :: natBytes (v / 256)
termination_by v
decreasing_by exact Nat.div_lt_self (Nat.pos_of_ne_zero (by assumption)) (by omega)

/-- Modelled from the spec: the `varint64` (`serializecompressed64`) encoding —
a count byte followed by that many little-endian significant bytes. -/
def writeCompressed64 (v : Nat) : Bytes :=
  (natBytes v).length :: natBytes v

/-- Modelled from the spec: `varint64` decoding; rejects a count byte above 8. -/
def readCompressed64 (d : Bytes) : Option (Nat × Bytes) :=
  match d with
  | [] => none
  | l :: rest =>
    if l > 8 then none
    else
      match readBytesN l rest with
      | none => none
      | some (bs, rest2) => some (fromLE bs, rest2)

/-! ## Error codes (`mega/types.h`) and client constants -/

def API_OK : Int := 0
def API_EINTERNAL : Int := -1
def API_EAGAIN : Int := -3
def API_EFAILED : Int := -5
def API_EKEY : Int := -14
def API_EOVERQUOTA : Int := -17
def API_EWRITE : Int := -20
def API_EREAD : Int := -21
def DAEMON_EFAILED : Int := -4

/-- Modelled from the spec: the client-default 509 backoff
(`MegaClient::DEFAULT_BW_OVERQUOTA_BACKOFF_SECS`, in seconds). -/
def DEFAULT_BW_OVERQUOTA_BACKOFF_SECS : Int := 3600

def RAIDPARTS : Nat := 6

/-! ## ChunkMac map model

Modelled from the spec (§4.2): `chunkmac_map` is an ordered map from
chunk-start offset to a 16-byte MAC; `macsmac` folds the per-chunk MACs in
map order (XOR into a zero accumulator, then encrypt with the transfer
cipher), and `macsmac_gaps` computes the same fold with the entries whose
*position* lies in `[g1,g2) ∪ [g3,g4)` omitted (the positions used by
`checkMetaMacWithMissingLateEntries` are entry indices counted from the start
of the map).  The block cipher is abstracted as a function `enc` on 16-byte
blocks. -/

/-- An ordered chunk-MAC map: (chunk start offset, 16-byte MAC) in offset
order. -/
abbrev ChunkMacs := List (Nat × Bytes)

/-- `SymmCipher::xorblock`: byte-wise XOR of two 16-byte blocks. -/
def xorBlock (a b : Bytes) : Bytes := List.zipWith Nat.xor a b

/-- The per-chunk MACs in map order. -/
def macValues (m : ChunkMacs) : List Bytes := m.map Prod.snd

/-- Modelled from the spec: `chunkmac_map::macsmac` — CBC fold of the
per-chunk MACs under the transfer cipher `enc`. -/
def macsmac (enc : Bytes → Bytes) (m : ChunkMacs) : Bytes :=
  (macValues m).foldl (fun acc mac => enc (xorBlock mac acc)) (List.replicate 16 0)

/-- The map with the entries at positions `[g1,g2) ∪ [g3,g4)` removed. -/
def removeGaps (m : ChunkMacs) (g1 g2 g3 g4 : Nat) : ChunkMacs :=
  ((m.enum).filter
    (fun p => !((decide (g1 ≤ p.1) && decide (p.1 < g2))
             || (decide (g3 ≤ p.1) && decide (p.1 < g4))))).map Prod.snd

/-- Modelled from the spec: `chunkmac_map::macsmac_gaps` — the `macsmac` fold
with the entries at positions `[g1,g2) ∪ [g3,g4)` omitted. -/
def macsmacGaps (enc : Bytes → Bytes) (m : ChunkMacs) (g1 g2 g3 g4 : Nat) : Bytes :=
  macsmac enc (removeGaps m g1 g2 g3 g4)

/-- Modelled from the spec: `chunkmac_map::finishedUploadChunks` merges the
uploader-local chunk MACs of one connection into the transfer-wide map
(insert or overwrite by offset, keeping the map ordered by offset). -/
def insertMac (m : ChunkMacs) (e : Nat × Bytes) : ChunkMacs :=
  match m with
  | [] => [e]
  | x :: xs =>
    if e.1 < x.1 then e :: x :: xs
    else if e.1 = x.1 then e :: xs
    else x :: insertMac xs e

/-- Merge a connection's finished chunk MACs into the transfer map. -/
def finishedUploadChunks (m other : ChunkMacs) : ChunkMacs :=
  other.foldl insertMac m

/-! ## Transfer and slot state -/

inductive TType
  | GET
  | PUT
deriving DecidableEq

/-- The fields of `Transfer` used by the verified slot code paths. -/
structure Transfer where
  ttype : TType
  size : Int
  progresscompleted : Int
  metamac : Bytes
  currentmetamac : Bytes
  hascurrentmetamac : Bool
  chunkmacs : ChunkMacs
  transferkey : Bytes
  ctriv : Int
  ultoken : Option Bytes
  filekey : Bytes
  failcount : Nat
deriving DecidableEq

/-- The slot-level error-tracking state of `TransferSlot`. -/
structure SlotState where
  errorcount : Nat
  lasterror : Int
deriving DecidableEq

/-! ## `TransferSlot::createconnectionsonce` (connection count) -/

/-- The connection count chosen by `createconnectionsonce` once the temporary
URL vector is known:
`connections = transferbuf.isRaid() ? RAIDPARTS : (transfer->size > 131072 ? client->connections[type] : 1)`. -/
def createConnectionsCount (isRaid : Bool) (size : Int) (clientConnections : Nat) : Nat :=
  if isRaid then RAIDPARTS
  else if size > 131072 then clientConnections
  else 1

/-! ## `TransferSlot::toggleport` -/

/-- First index `≥ 0` of a character satisfying `p`. -/
def findIdxFrom (p : Char → Bool) : List Char → Option Nat
  | [] => none
  | x :: xs => if p x then some 0 else (findIdxFrom p xs).map (· + 1)

/-- `std::string::find(c, s)`: first index `≥ s` of character `c`. -/
def findFrom (c : Char) (u : List Char) (s : Nat) : Option Nat :=
  (findIdxFrom (fun x => x = c) (u.drop s)).map (· + s)

def httpColon : List Char := ['h', 't', 't', 'p', ':']

def altPortStr : List Char := [':', '8', '0', '8', '0']

/-- `std::string::insert(idx, s)`. -/
def strInsert (u : List Char) (idx : Nat) (s : List Char) : List Char :=
  u.take idx ++ s ++ u.drop idx

/-- `std::string::erase(pos, count)` (count clamped to the end). -/
def strErase (u : List Char) (pos count : Nat) : List Char :=
  u.take pos ++ u.drop (pos + count)

/-- `TransferSlot::toggleport`: on an `http:` URL, looks up the first `/` and
the first `:` from index 8; inserts `":8080"` before the `/` when no `:` was
found, otherwise erases `[portstartindex, portendindex)`.  When the `:` found
lies *after* the `/`, the C++ `size_t` subtraction `portendindex -
portstartindex` wraps to a huge count, so the erase removes everything from
the `:` to the end of the string. -/
def toggleport (u : List Char) : List Char :=
  if u.take 5 = httpColon then
    match findFrom '/' u 8, findFrom ':' u 8 with
    | some e, none => strInsert u e altPortStr
    | some e, some p => if p ≤ e then strErase u p (e - p) else u.take p
    | none, _ => u
  else u

/-! ## `TransferSlot::checkMetaMacWithMissingLateEntries` -/

/-- The single-gap scan: `countBack ∈ [1, min(32*3, N)]`, `start1 = N -
countBack`, `len1 ∈ [1, 64]` with `start1 + len1 ≤ N`, matching when
`metamac = macsmac_gaps(chunkmacs, start1, start1+len1, N, N)`. -/
def singleGapSearch (enc : Bytes → Bytes) (t : Transfer) : Bool :=
  let e := t.chunkmacs.length
  let finalN := min 96 e
  (List.range finalN).any fun cb =>
    let start1 := e - (cb + 1)
    (List.range 64).any fun l =>
      let len1 := l + 1
      decide (start1 + len1 ≤ e) &&
        decide (t.metamac = macsmacGaps enc t.chunkmacs start1 (start1 + len1) e e)

/-- The two-gap scan: `start1 ∈ [N - min(16*2+8, N), N)`, `len1 ∈ [1,16]`,
`start2 ∈ [start1+len1+1, N)`, `len2 ∈ [1,16]` with both gaps inside the map. -/
def twoGapSearch (enc : Bytes → Bytes) (t : Transfer) : Bool :=
  let e := t.chunkmacs.length
  let finalN := min 40 e
  (List.range finalN).any fun s1o =>
    let start1 := e - finalN + s1o
    (List.range 16).any fun l1o =>
      let len1 := l1o + 1
      decide (start1 + len1 ≤ e) &&
        ((List.range (e - (start1 + len1 + 1))).any fun s2o =>
          let start2 := start1 + len1 + 1 + s2o
          (List.range 16).any fun l2o =>
            let len2 := l2o + 1
            decide (start2 + len2 ≤ e) &&
              decide (t.metamac =
                macsmacGaps enc t.chunkmacs start1 (start1 + len1) start2 (start2 + len2)))

/-- On a gap match the correct MAC (the full `macsmac`) is adopted into both
`currentmetamac` and `metamac`. -/
def adoptCorrectMac (enc : Bytes → Bytes) (t : Transfer) : Transfer :=
  let correctMac := macsmac enc t.chunkmacs
  { t with currentmetamac := correctMac, metamac := correctMac }

/-- `TransferSlot::checkMetaMacWithMissingLateEntries`: single-gap scan first,
then the two-gap scan; on a match adopt the correct MAC and return true. -/
def checkMetaMacWithMissingLateEntries (enc : Bytes → Bytes) (t : Transfer) :
    Bool × Transfer :=
  if singleGapSearch enc t then (true, adoptCorrectMac enc t)
  else if twoGapSearch enc t then (true, adoptCorrectMac enc t)
  else (false, t)

/-! ## `TransferSlot::checkDownloadTransferFinished` -/

/-- How a tick ends a transfer: `transfer->complete(...)` or
`transfer->failed(e, ...)`. -/
inductive TransferEnd
  | completedEnd
  | failedEnd (e : Int)
deriving DecidableEq

/-- `TransferSlot::checkDownloadTransferFinished`: returns whether the
transfer was finished (i.e. `progresscompleted == size`), the updated
transfer, and the end event if any. -/
def checkDownloadTransferFinished (enc : Bytes → Bytes) (t : Transfer) :
    Bool × Transfer × Option TransferEnd :=
  if t.progresscompleted = t.size then
    let t1 := if t.progresscompleted ≠ 0 then
        { t with currentmetamac := macsmac enc t.chunkmacs, hascurrentmetamac := true }
      else t
    if t1.size = 0 ∨ t1.currentmetamac = t1.metamac then
      (true, t1, some .completedEnd)
    else
      let r := checkMetaMacWithMissingLateEntries enc t1
      if r.1 then (true, r.2, some .completedEnd)
      else (true, { r.2 with chunkmacs := [] }, some (.failedEnd API_EKEY))
  else (false, t, none)

/-! ## `TransferSlot::doio` entry checks (lines 479-534) -/

inductive TickOutcome
  | completed
  | failedT (e : Int)
  | pendingComplete
  | waitUrls
  | proceed
deriving DecidableEq

/-- The checks `doio` performs before servicing connections: the pending-
completion paths (no file access, all bytes done, or PUT with upload token),
the lazy `createconnectionsonce` gate, then the `errorcount > 4` abort. -/
def doioGate (enc : Bytes → Bytes) (hasFa urlsKnown : Bool)
    (st : SlotState) (t : Transfer) : TickOutcome :=
  if ¬hasFa ∨ (t.size ≠ 0 ∧ t.progresscompleted = t.size)
      ∨ (t.ttype = .PUT ∧ t.ultoken.isSome) then
    if t.ttype = .GET ∨ t.ultoken.isSome then
      if hasFa ∧ t.ttype = .GET then
        let t1 := { t with currentmetamac := macsmac enc t.chunkmacs,
                           hascurrentmetamac := true }
        if t1.currentmetamac = t1.metamac then .completed
        else .failedT API_EKEY
      else .pendingComplete
    else .failedT API_EINTERNAL
  else if ¬urlsKnown then .waitUrls
  else if st.errorcount > 4 then .failedT st.lasterror
  else .proceed

/-! ## GET sync-write completion (`REQ_DECRYPTED`, lines 838-857) -/

inductive SyncWriteOutcome
  | writeDone
  | failTW (e : Int)
  | backoffRetry
deriving DecidableEq

/-- The synchronous-write branch of the `REQ_DECRYPTED` state: on a
successful `fwrite` the write is released and `errorcount` is reset to 0; on
failure without the retry flag the transfer fails with `EWRITE`; with the
retry flag, `lasterror` becomes `EWRITE` and a short backoff is armed. -/
def decryptedSyncWrite (writeOk retryFlag : Bool) (ec : Nat) (le : Int) :
    SyncWriteOutcome × Nat × Int :=
  if writeOk then (.writeDone, 0, le)
  else if ¬retryFlag then (.failTW API_EWRITE, ec, le)
  else (.backoffRetry, ec, API_EWRITE)

/-! ## `REQ_FAILURE` handling (lines 964-1055) -/

inductive FailureOutcome
  | failT (e : Int) (backoff : Int)
  | rearm (backoff : Int)
  | raidRecovered
  | tempFail
deriving DecidableEq

/-- `TransferSlot::tryRaidRecoveryFromHttpGetError` succeeds only for a raid
transfer whose buffer can still switch to 5-part mode. -/
def tryRaidRecoveryFromHttpGetError (isRaid recoveryPossible : Bool) : Bool :=
  isRaid && recoveryPossible

/-- The `REQ_FAILURE` dispatch of `doio`: the implicit-HTTPS-upgrade check
(text/html content type on an `http:` URL) first, then 509 overquota (with
`timeleft` converted to deciseconds, or the client default), 429 (0.5 s
backoff, re-prepared), 503 non-raid (5 s backoff, re-prepared), 403/404/503-
raid (raid recovery or `EAGAIN`), status 0 with possible raid recovery, and
otherwise the generic temporary-failure path. -/
def handleFailure (httpstatus : Int) (htmlContentType urlIsHttp : Bool)
    (timeleft : Int) (isRaid recoveryPossible : Bool) : FailureOutcome :=
  if httpstatus ≠ 0 ∧ htmlContentType ∧ urlIsHttp then .failT API_EAGAIN 0
  else if httpstatus = 509 then
    .failT API_EOVERQUOTA
      (if timeleft > 0 then timeleft * 10 else DEFAULT_BW_OVERQUOTA_BACKOFF_SECS * 10)
  else if httpstatus = 429 then .rearm 5
  else if httpstatus = 503 ∧ ¬isRaid then .rearm 50
  else if httpstatus = 403 ∨ httpstatus = 404 ∨ (httpstatus = 503 ∧ isRaid) then
    if tryRaidRecoveryFromHttpGetError isRaid recoveryPossible then .raidRecovered
    else .failT API_EAGAIN 0
  else if httpstatus = 0 ∧ tryRaidRecoveryFromHttpGetError isRaid recoveryPossible then
    .raidRecovered
  else .tempFail

/-! ## PUT `REQ_SUCCESS` handling (lines 613-741) -/

inductive ReqStatus
  | READY
  | PREPARED
  | INFLIGHT
  | SUCCESS
  | FAILURE
  | DECRYPTING
  | DECRYPTED
  | ENCRYPTING
  | ASYNCIO
  | DONE
deriving DecidableEq

/-- The fields of an upload request (`HttpReqUL`) read by the PUT
`REQ_SUCCESS` handler. -/
structure UploadReq where
  status : ReqStatus
  size : Int
  inBody : Bytes
  contenttypeHtml : Bool
  posturlHttp : Bool
  mChunkmacs : ChunkMacs
deriving DecidableEq

def UPLOADTOKENLEN : Nat := 36

def OLDUPLOADTOKENLEN : Nat := 27

/-- Modelled from the spec: the numeric-error parse (`atoi`) of an upload
response body — optional leading minus sign (byte 45), then leading decimal
digits. -/
def atoiDigits : Bytes → Nat → Nat
  | b :: rest, acc => if 48 ≤ b ∧ b ≤ 57 then atoiDigits rest (acc * 10 + (b - 48)) else acc
  | [], acc => acc

def atoiBytes (l : Bytes) : Int :=
  match l with
  | 45 :: rest => -(atoiDigits rest 0 : Int)
  | _ => (atoiDigits l 0 : Int)

/-- The final file key assembly on PUT completion:
`memcpy(filekey, transferkey, 16)`, `((int64_t*)filekey)[2] = ctriv`,
`((int64_t*)filekey)[3] = macsmac(chunkmacs)`, then
`SymmCipher::xorblock(filekey + 16, filekey)`.  Modelled from the spec where
the sources are silent: the `int64` fields are little-endian, and the
`xorblock` call obfuscates the second half with the first (`k2 ← k2 ⊕ k1`). -/
def assembleFileKey (transferkey : Bytes) (ctriv mac : Int) : Bytes :=
  let k := transferkey.take 16 ++ writeI64 ctriv ++ writeI64 mac
  k.take 16 ++ xorBlock (k.drop 16) (k.take 16)

/-- A request status that forces its chunk MACs to be merged when another
connection delivers the upload token. -/
def otherStatusCounts (s : ReqStatus) : Bool :=
  s = .INFLIGHT || s = .SUCCESS || s = .FAILURE

/-- The token-receipt loop over the other connections (`for (int j =
connections; j--; )`): every other connection still `INFLIGHT`, `SUCCESS` or
`FAILURE` has its size added to `progresscompleted` and its chunk MACs merged
via `finishedUploadChunks`. -/
def includeOtherConnections (reqs : List (Option UploadReq)) (i : Nat)
    (t : Transfer) : Transfer :=
  ((List.range reqs.length).reverse).foldl
    (fun acc j =>
      if j ≠ i then
        match reqs[j]? with
        | some (some r) =>
          if otherStatusCounts r.status then
            { acc with progresscompleted := acc.progresscompleted + r.size,
                       chunkmacs := finishedUploadChunks acc.chunkmacs r.mChunkmacs }
          else acc
        | _ => acc
      else acc)
    t

inductive PutOutcome
  | completeP
  | failP (e : Int)
  | retryEKEY
  | chunkOk
  | failNoToken
deriving DecidableEq

structure PutStepResult where
  outcome : PutOutcome
  t : Transfer
  errorcount : Nat
  lasterror : Int
  reqStatus : ReqStatus
deriving DecidableEq

/-- The branch parsing a non-token response body as a numeric error:
`API_EKEY` only bumps `errorcount` and re-prepares the chunk;
`DAEMON_EFAILED` or a text/html content type on an `http:` URL fails the
transfer with `EAGAIN` (after switching the client to HTTPS); anything else
fails the transfer with the parsed error. -/
def uploadErrorStep (r : UploadReq) (t : Transfer) (ec : Nat) (le : Int) :
    PutStepResult :=
  let e := atoiBytes r.inBody
  if e = API_EKEY then
    { outcome := .retryEKEY, t := t, errorcount := ec + 1, lasterror := e,
      reqStatus := .PREPARED }
  else if e = DAEMON_EFAILED ∨ (r.contenttypeHtml ∧ r.posturlHttp) then
    { outcome := .failP API_EAGAIN, t := t, errorcount := ec, lasterror := le,
      reqStatus := .SUCCESS }
  else
    { outcome := .failP e, t := t, errorcount := ec, lasterror := le,
      reqStatus := .SUCCESS }

/-- The error actually reported by the non-token upload-error branch. -/
def mappedUploadError (e : Int) (htmlOnHttp : Bool) : Int :=
  if e = DAEMON_EFAILED ∨ htmlOnHttp then API_EAGAIN else e

/-- The PUT `REQ_SUCCESS` handler for connection `i` holding request `r`
(modelled after its early returns): a non-empty body is either an upload
token — 36 bytes, new style when the last byte is 1, otherwise it must
base64-decode (`atob`, modelled from the spec) to 27 bytes — leading to the
completion path, or a numeric error.  An empty body marks this connection's
chunks as finished.  `macsmacI` abstracts the 64-bit `macsmac` value of a
chunk-MAC map under the transfer cipher (its condensation to `int64` is not
part of the given sources). -/
def putSuccessStep (atob : Bytes → Bytes) (macsmacI : ChunkMacs → Int)
    (reqs : List (Option UploadReq)) (i : Nat) (r : UploadReq)
    (t : Transfer) (ec : Nat) (le : Int) : PutStepResult :=
  if r.inBody ≠ [] then
    if r.inBody.length = UPLOADTOKENLEN then
      let newStyle := r.inBody.getLast? = some 1
      let tokenOK := newStyle || decide ((atob r.inBody).length = OLDUPLOADTOKENLEN)
      if tokenOK then
        let t0 := { t with
          ultoken := some (if newStyle then r.inBody else atob r.inBody),
          failcount := 0 }
        let t1 := includeOtherConnections reqs i t0
        let t2 := { t1 with
          chunkmacs := finishedUploadChunks t1.chunkmacs r.mChunkmacs,
          progresscompleted := t1.progresscompleted + r.size }
        let t3 := { t2 with
          filekey := assembleFileKey t2.transferkey t2.ctriv (macsmacI t2.chunkmacs) }
        { outcome := .completeP, t := t3, errorcount := 0, lasterror := le,
          reqStatus := .SUCCESS }
      else uploadErrorStep r { t with ultoken := none } ec le
    else uploadErrorStep r t ec le
  else
    let t1 := { t with
      chunkmacs := finishedUploadChunks t.chunkmacs r.mChunkmacs,
      progresscompleted := t.progresscompleted + r.size }
    if t1.progresscompleted = t1.size then
      { outcome := .failNoToken, t := t1, errorcount := ec, lasterror := le,
        reqStatus := .SUCCESS }
    else
      { outcome := .chunkOk, t := { t1 with failcount := 0 }, errorcount := 0,
        lasterror := le, reqStatus := .READY }

/-! ## `LocalNode` serialization (`src/node.cpp`, lines 2336-2482) -/

def FILENODE : Nat := 0

def FOLDERNODE : Nat := 1

def NODEHANDLE : Nat := 6

/-- The `LocalNode` fields carried by its cache record. -/
structure LocalNodeRec where
  ntype : Nat
  size : Int
  fsid : Nat
  parent_dbid : Nat
  nodehandle : Nat
  localname : Bytes
  crc : Bytes
  mtime : Nat
  fingerprintValid : Bool
  syncable : Bool
  shortname : Option Bytes
deriving DecidableEq

/-- `serializestring` / `serializepstr`: u16 length followed by the bytes. -/
def writeString (s : Bytes) : Bytes := toLE s.length 2 ++ s

/-- `unserializestring` / `unserializecstr`: u16 length, then that many
bytes. -/
def readString (d : Bytes) : Option (Bytes × Bytes) :=
  match readU 2 d with
  | none => none
  | some (len, d1) => readBytesN len d1

/-- `LocalNode::serialize`: type/size combo (i64), fsid (u64), parent dbid
(u32), node handle (6 bytes), local name (u16-length string), for file nodes
the fingerprint crc (16 raw bytes) and mtime (varint64, zeros when the
fingerprint is invalid), the syncable byte, the 1-byte expansion-flag header
(always 1: the shortname is stored), and the shortname pstr (length 0 when
there is none). -/
def serializeLocalNode (l : LocalNodeRec) : Bytes :=
  let size : Int := if l.size < 0 then 0 else l.size
  writeI64 (if l.ntype ≠ FILENODE then -(l.ntype : Int) else size)
  ++ toLE l.fsid 8
  ++ toLE l.parent_dbid 4
  ++ toLE l.nodehandle NODEHANDLE
  ++ writeString l.localname
  ++ (if l.ntype = FILENODE then
        (if l.fingerprintValid then l.crc ++ writeCompressed64 l.mtime
         else List.replicate 16 0 ++ writeCompressed64 0)
      else [])
  ++ [if l.syncable then 1 else 0]
  ++ [1]
  ++ (match l.shortname with
      | some s => writeString s
      | none => toLE 0 2)

/-- `LocalNode::unserialize`: rejects inputs shorter than the fixed leading
fields, then reads the fields in order; a negative type/size combo `≥
-FOLDERNODE` denotes a folder (size 0), otherwise a file node carrying the
size.  The syncable byte and the expansion-flag byte are only read when data
remains (defaulting to 1 and 0); a set first expansion flag requires a
shortname string.  An empty shortname becomes `none`.  Trailing data after
the last field is NOT rejected — the C++ only has `assert(!r.hasdataleft())`,
so a release build accepts and ignores it. -/
def unserializeLocalNode (d : Bytes) : Option LocalNodeRec :=
  if d.length < 8 + 8 + 4 + NODEHANDLE + 2 then none
  else
    match readI64 d with
    | none => none
    | some (sz, d1) =>
      let tsz : Nat × Int :=
        if sz < 0 ∧ -(FOLDERNODE : Int) ≤ sz then ((-sz).toNat, 0) else (FILENODE, sz)
      match readU 8 d1 with
      | none => none
      | some (fsid, d2) =>
        match readU 4 d2 with
        | none => none
        | some (pdbid, d3) =>
          match readU NODEHANDLE d3 with
          | none => none
          | some (h, d4) =>
            match readString d4 with
            | none => none
            | some (localname, d5) =>
              match (if tsz.1 = FILENODE then readBytesN 16 d5
                     else some (List.replicate 16 0, d5)) with
              | none => none
              | some (crc, d6) =>
                match (if tsz.1 = FILENODE then readCompressed64 d6
                       else some (0, d6)) with
                | none => none
                | some (mtime, d7) =>
                  match (if d7 ≠ [] then readBytesN 1 d7 else some ([1], d7)) with
                  | none => none
                  | some (syncbs, d8) =>
                    match (if d8 ≠ [] then readBytesN 1 d8 else some ([0], d8)) with
                    | none => none
                    | some (flagbs, d9) =>
                      match (if flagbs.headD 0 ≠ 0 then readString d9
                             else some ([], d9)) with
                      | none => none
                      | some (shortname, _) =>
                        some {
                          ntype := tsz.1
                          size := tsz.2
                          fsid := fsid
                          parent_dbid := pdbid
                          nodehandle := h
                          localname := localname
                          crc := crc
                          mtime := mtime
                          fingerprintValid := mtime ≠ 0
                          syncable := syncbs.headD 1 = 1
                          shortname := if shortname = [] then none else some shortname }


/-! ## Claim-support definitions -/

/-- Whether connection `j` (other than `i`) is picked up by the token-receipt
loop: it holds a request whose status is `INFLIGHT`, `SUCCESS` or `FAILURE`. -/
def connectionCounts (reqs : List (Option UploadReq)) (i j : Nat) : Bool :=
  decide (j ≠ i) &&
    (match reqs[j]? with
     | some (some r) => otherStatusCounts r.status
     | _ => false)

/-- The size of the request on connection `j` (0 when there is none). -/
def reqSizeAt (reqs : List (Option UploadReq)) (j : Nat) : Int :=
  match reqs[j]? with
  | some (some r) => r.size
  | _ => 0

/-- The local chunk-MAC map of the request on connection `j`. -/
def reqMacsAt (reqs : List (Option UploadReq)) (j : Nat) : ChunkMacs :=
  match reqs[j]? with
  | some (some r) => r.mChunkmacs
  | _ => []

/-- The connections whose chunk MACs get merged on token receipt, in the
order the loop visits them (highest index first). -/
def mergingConnections (reqs : List (Option UploadReq)) (i : Nat) : List Nat :=
  ((List.range reqs.length).reverse).filter (connectionCounts reqs i)

/-- The conclusions of the non-token upload-error branch, used to state the
error side of the PUT `REQ_SUCCESS` claim. -/
def uploadErrorConclusion (res : PutStepResult) (r : UploadReq) (ec : Nat) : Prop :=
  (atoiBytes r.inBody = API_EKEY →
     res.outcome = .retryEKEY ∧ res.errorcount = ec + 1 ∧ res.reqStatus = .PREPARED) ∧
  (atoiBytes r.inBody ≠ API_EKEY →
     res.outcome = .failP (mappedUploadError (atoiBytes r.inBody)
       (r.contenttypeHtml && r.posturlHttp)))

/-- A single gap of `len1 ∈ [1,64]` entries starting in the last
`min(96, N)` entries whose omission reproduces the recorded metamac. -/
def SingleGapMatch (enc : Bytes → Bytes) (t : Transfer) : Prop :=
  ∃ s1 l1 : Nat,
    t.chunkmacs.length - min 96 t.chunkmacs.length ≤ s1 ∧
    s1 < t.chunkmacs.length ∧
    1 ≤ l1 ∧ l1 ≤ 64 ∧ s1 + l1 ≤ t.chunkmacs.length ∧
    t.metamac = macsmacGaps enc t.chunkmacs s1 (s1 + l1)
      t.chunkmacs.length t.chunkmacs.length

/-- Two separated gaps of `len ∈ [1,16]` entries each, lying in the last
`min(40, N)` entries, whose omission reproduces the recorded metamac. -/
def TwoGapMatch (enc : Bytes → Bytes) (t : Transfer) : Prop :=
  ∃ s1 l1 s2 l2 : Nat,
    t.chunkmacs.length - min 40 t.chunkmacs.length ≤ s1 ∧
    s1 < t.chunkmacs.length ∧
    1 ≤ l1 ∧ l1 ≤ 16 ∧ s1 + l1 ≤ t.chunkmacs.length ∧
    s1 + l1 < s2 ∧ s2 < t.chunkmacs.length ∧
    1 ≤ l2 ∧ l2 ≤ 16 ∧ s2 + l2 ≤ t.chunkmacs.length ∧
    t.metamac = macsmacGaps enc t.chunkmacs s1 (s1 + l1) s2 (s2 + l2)

/-- The in-memory records the serializer is used on: a file or folder node,
sizes and ids within their wire widths, 16-byte crc, byte-valued strings
below the u16 length limit, a valid fingerprint for files, zeroed fingerprint
data for folders, and no empty shortname. -/
def validLocalNodeRec (l : LocalNodeRec) : Prop :=
  (l.ntype = FILENODE ∨ l.ntype = FOLDERNODE) ∧
  0 ≤ l.size ∧ l.size < 2 ^ 63 ∧
  l.fsid < 2 ^ 64 ∧
  l.parent_dbid < 2 ^ 32 ∧
  l.nodehandle < 2 ^ 48 ∧
  l.localname.length < 2 ^ 16 ∧ (∀ b ∈ l.localname, b < 256) ∧
  l.crc.length = 16 ∧ (∀ b ∈ l.crc, b < 256) ∧
  l.mtime < 2 ^ 64 ∧
  (l.ntype = FILENODE → l.fingerprintValid = true) ∧
  (l.ntype = FOLDERNODE → l.size = 0 ∧ l.crc = List.replicate 16 0 ∧ l.mtime = 0) ∧
  (∀ s, l.shortname = some s → s ≠ [] ∧ s.length < 2 ^ 16 ∧ ∀ b ∈ s, b < 256)

/-! ## Concrete inputs used by the witnesses and counterexamples -/

/-- The identity block cipher, used to evaluate the cipher-parametric
definitions on concrete inputs. -/
def enc0 : Bytes → Bytes := id

/-- A completed zero-byte download. -/
def tZero : Transfer :=
  { ttype := .GET, size := 0, progresscompleted := 0, metamac := [],
    currentmetamac := [], hascurrentmetamac := false, chunkmacs := [],
    transferkey := [], ctriv := 0, ultoken := none, filekey := [],
    failcount := 0 }

/-- A fully downloaded cached GET whose stored metamac matches. -/
def tCached : Transfer :=
  { ttype := .GET, size := 16, progresscompleted := 16,
    metamac := List.replicate 16 0, currentmetamac := [],
    hascurrentmetamac := false, chunkmacs := [], transferkey := [], ctriv := 0,
    ultoken := none, filekey := [], failcount := 0 }

/-- A GET in mid-transfer (not at a completion path). -/
def tMid : Transfer :=
  { ttype := .GET, size := 16, progresscompleted := 0, metamac := [],
    currentmetamac := [], hascurrentmetamac := false, chunkmacs := [],
    transferkey := [], ctriv := 0, ultoken := none, filekey := [],
    failcount := 0 }

/-- A PUT transfer awaiting its token. -/
def tUp : Transfer :=
  { ttype := .PUT, size := 8, progresscompleted := 0, metamac := [],
    currentmetamac := [], hascurrentmetamac := false, chunkmacs := [],
    transferkey := List.replicate 16 7, ctriv := 5, ultoken := none,
    filekey := [], failcount := 0 }

/-- A new-style 36-byte upload token body (last byte 1). -/
def tokenBody : Bytes := List.replicate 35 65 ++ [1]

/-- The connection that received the upload token. -/
def rToken : UploadReq :=
  { status := .SUCCESS, size := 5, inBody := tokenBody,
    contenttypeHtml := false, posturlHttp := false,
    mChunkmacs := [(1, List.replicate 16 2)] }

/-- Another connection still in flight when the token arrives. -/
def rOther : UploadReq :=
  { status := .INFLIGHT, size := 3, inBody := [],
    contenttypeHtml := false, posturlHttp := false,
    mChunkmacs := [(0, List.replicate 16 1)] }

def reqsW : List (Option UploadReq) := [some rToken, some rOther]

/-- A download whose recorded metamac misses the last chunk-MAC entry
(the legacy upload bug). -/
def tGap : Transfer :=
  { ttype := .GET, size := 32, progresscompleted := 32,
    metamac := macsmacGaps enc0
      [(0, List.replicate 16 3), (16, List.replicate 16 5)] 1 2 2 2,
    currentmetamac := [], hascurrentmetamac := false,
    chunkmacs := [(0, List.replicate 16 3), (16, List.replicate 16 5)],
    transferkey := [], ctriv := 0, ultoken := none, filekey := [],
    failcount := 0 }

/-- A minimal valid folder record. -/
def folderRec : LocalNodeRec :=
  { ntype := FOLDERNODE, size := 0, fsid := 0, parent_dbid := 0,
    nodehandle := 0, localname := [97], crc := List.replicate 16 0,
    mtime := 0, fingerprintValid := false, syncable := true,
    shortname := none }

/-- A file record with all optional parts populated. -/
def fileRec : LocalNodeRec :=
  { ntype := FILENODE, size := 1000, fsid := 77, parent_dbid := 3,
    nodehandle := 42, localname := [97, 98], crc := List.replicate 16 9,
    mtime := 123456, fingerprintValid := true, syncable := false,
    shortname := some [99] }

/-- A serialized folder record followed by one byte of trailing data. -/
def trailingInput : Bytes := serializeLocalNode folderRec ++ [0]

/-- The URL of the port-toggle counterexample: an http URL with an explicit
port other than 8080. -/
def urlPort1 : List Char :=
  ['h', 't', 't', 'p', ':', '/', '/', 'h', ':', '1', '/', 'x']

/-! ### Round-trip lemmas for the primitives -/

theorem toLE_length (v n : Nat) : (toLE v n).length = n := by
  induction n generalizing v with
  | zero => rfl
  | succ n ih => simp [toLE, ih]

theorem fromLE_toLE (v n : Nat) (h : v < 256 ^ n) : fromLE (toLE v n) = v := by
  induction n generalizing v with
  | zero =>
    have : v = 0 := by simpa using h
    subst this; rfl
  | succ n ih =>
    have hdiv : v / 256 < 256 ^ n := by
      rw [Nat.div_lt_iff_lt_mul (by omega)]
      calc v < 256 ^ (n + 1) := h
        _ = 256 ^ n * 256 := by ring
    simp only [toLE, fromLE, List.foldr_cons]
    have hih : fromLE (toLE (v / 256) n) = v / 256 := ih _ hdiv
    simp only [fromLE] at hih
    rw [hih]
    omega

theorem readBytesN_append (xs rest : Bytes) (n : Nat) (h : xs.length = n) :
    readBytesN n (xs ++ rest) = some (xs, rest) := by
  subst h
  have h1 : (xs ++ rest).take xs.length = xs := by
    rw [List.take_append_eq_append_take]
    simp
  have h2 : (xs ++ rest).drop xs.length = rest := by
    rw [List.drop_append_eq_append_drop]
    simp
  simp [readBytesN, h1, h2]

theorem readU_toLE (v n : Nat) (rest : Bytes) (h : v < 256 ^ n) :
    readU n (toLE v n ++ rest) = some (v, rest) := by
  simp [readU, readBytesN_append _ _ _ (toLE_length v n), fromLE_toLE v n h]

theorem readI64_writeI64 (v : Int) (rest : Bytes)
    (h1 : -(2 ^ 63) ≤ v) (h2 : v < 2 ^ 63) :
    readI64 (writeI64 v ++ rest) = some (v, rest) := by
  have e64 : (2 ^ 64 : Int) = 18446744073709551616 := by norm_num
  have hmodlo : (0:Int) ≤ v % (2 ^ 64 : Int) := Int.emod_nonneg v (by norm_num)
  have hmodhi : v % (2 ^ 64 : Int) < (2 ^ 64 : Int) := Int.emod_lt_of_pos v (by norm_num)
  have hlt : (v % (2 ^ 64 : Int)).toNat < 256 ^ 8 := by
    have h256 : (256 : Nat) ^ 8 = 18446744073709551616 := by norm_num
    rw [e64] at hmodhi
    omega
  have hval : (if (v % (2 ^ 64 : Int)).toNat < 2 ^ 63
      then (((v % (2 ^ 64 : Int)).toNat : Nat) : Int)
      else (((v % (2 ^ 64 : Int)).toNat : Nat) : Int) - 2 ^ 64) = v := by
    split <;> omega
  simp only [writeI64, readI64, readU_toLE _ _ _ hlt, Option.map_some']
  rw [hval]

theorem fromLE_natBytes (v : Nat) : fromLE (natBytes v) = v := by
  induction v using Nat.strong_induction_on with
  | _ v ih =>
    rw [natBytes]
    split
    · subst ‹v = 0›; rfl
    · simp only [fromLE, List.foldr_cons]
      have hdiv := ih (v / 256)
        (Nat.div_lt_self (Nat.pos_of_ne_zero ‹v ≠ 0›) (by omega))
      simp only [fromLE] at hdiv
      rw [hdiv]
      omega

theorem natBytes_length_le (n v : Nat) (h : v < 256 ^ n) :
    (natBytes v).length ≤ n := by
  induction n generalizing v with
  | zero =>
    have : v = 0 := by simpa using h
    subst this
    rw [natBytes]
    simp
  | succ n ih =>
    rw [natBytes]
    split
    · simp
    · have hdiv : v / 256 < 256 ^ n := by
        rw [Nat.div_lt_iff_lt_mul (by omega)]
        calc v < 256 ^ (n + 1) := h
          _ = 256 ^ n * 256 := by ring
      simpa using ih (v / 256) hdiv

theorem readCompressed64_writeCompressed64 (v : Nat) (rest : Bytes)
    (h : v < 256 ^ 8) :
    readCompressed64 (writeCompressed64 v ++ rest) = some (v, rest) := by
  have hlen : (natBytes v).length ≤ 8 := natBytes_length_le 8 v h
  simp only [writeCompressed64, List.cons_append, readCompressed64]
  rw [if_neg (by omega)]
  rw [readBytesN_append _ _ _ rfl]
  simp only [fromLE_natBytes]

/-! ## Generic list helpers -/

theorem take_append_of_length {α : Type} (xs ys : List α) (n : Nat)
    (h : xs.length = n) : (xs ++ ys).take n = xs := by
  subst h
  simp [List.take_append_eq_append_take]

theorem drop_append_of_length {α : Type} (xs ys : List α) (n : Nat)
    (h : xs.length = n) : (xs ++ ys).drop n = ys := by
  subst h
  simp [List.drop_append_eq_append_drop]

theorem writeI64_length (v : Int) : (writeI64 v).length = 8 :=
  toLE_length _ 8

/-! ## C4 — connection count (`createconnectionsonce`) -/

/-- C4 counterexample: a non-RAID transfer of size exactly 131072 (128 KiB)
gets 1 connection, although 131072 is not below 128 KiB and the
client-configured count is 4 — refuting "C = 1 if and only if the file size
is below 131072 bytes, otherwise C is the client-configured count". -/
theorem createConnectionsCount_boundary_ce :
    createConnectionsCount false 131072 4 = 1 ∧
    ¬((131072 : Int) < 131072) ∧ (1 : Nat) ≠ 4 := by
  refine ⟨by decide, by omega, by omega⟩

/-- C4 (amended): once the temporary URLs are known, the connection count is
6 for RAID; for non-RAID it is 1 exactly when `size ≤ 131072` (in particular
at size 131071), and the client-configured count for larger files; the two
"iff" forms hold whenever the client-configured count is neither 1 nor 6. -/
theorem createConnectionsCount_spec (isRaid : Bool) (size : Int) (cc : Nat)
    (h1 : cc ≠ 1) (h6 : cc ≠ RAIDPARTS) :
    (createConnectionsCount isRaid size cc = RAIDPARTS ↔ isRaid = true) ∧
    (createConnectionsCount isRaid size cc = 1 ↔ (isRaid = false ∧ size ≤ 131072)) ∧
    (isRaid = false → 131072 < size → createConnectionsCount isRaid size cc = cc) := by
  unfold RAIDPARTS at h6
  unfold createConnectionsCount RAIDPARTS
  cases isRaid <;> by_cases hs : size > 131072 <;> simp [hs] <;> omega

/-- C4 witness: a non-RAID file of size 131071 gets exactly one connection. -/
theorem createConnectionsCount_witness :
    createConnectionsCount false 131071 4 = 1 :=
  ((createConnectionsCount_spec false 131071 4 (by omega) (by decide)).2.1).mpr
    ⟨rfl, by omega⟩

/-! ## C2 — final file key assembly on PUT completion -/

/-- C2: the 32-byte file key is assembled as `transferkey ‖ ctriv ‖
mac-of-macs` (bytes [0,16), [16,24), [24,32)), after which the second 16-byte
half is XORed with the first half, so the completed key is
`transferkey ‖ ((ctriv ‖ mac) ⊕ transferkey)`. -/
theorem assembleFileKey_spec (tk : Bytes) (civ mac : Int) (h : tk.length = 16) :
    (tk ++ (writeI64 civ ++ writeI64 mac)).take 16 = tk ∧
    ((tk ++ (writeI64 civ ++ writeI64 mac)).drop 16).take 8 = writeI64 civ ∧
    ((tk ++ (writeI64 civ ++ writeI64 mac)).drop 16).drop 8 = writeI64 mac ∧
    assembleFileKey tk civ mac = tk ++ xorBlock (writeI64 civ ++ writeI64 mac) tk ∧
    (assembleFileKey tk civ mac).take 16 = tk ∧
    (assembleFileKey tk civ mac).drop 16 = xorBlock (writeI64 civ ++ writeI64 mac) tk := by
  have htake : (tk ++ (writeI64 civ ++ writeI64 mac)).take 16 = tk :=
    take_append_of_length _ _ _ h
  have hdrop : (tk ++ (writeI64 civ ++ writeI64 mac)).drop 16 = writeI64 civ ++ writeI64 mac :=
    drop_append_of_length _ _ _ h
  have hciv : (writeI64 civ ++ writeI64 mac).take 8 = writeI64 civ :=
    take_append_of_length _ _ _ (writeI64_length civ)
  have hmac : (writeI64 civ ++ writeI64 mac).drop 8 = writeI64 mac :=
    drop_append_of_length _ _ _ (writeI64_length civ)
  have htk16 : tk.take 16 = tk := by rw [← h]; exact tk.take_length
  have hxlen : (xorBlock (writeI64 civ ++ writeI64 mac) tk).length = 16 := by
    simp [xorBlock, h, writeI64_length]
  have hkey : assembleFileKey tk civ mac
      = tk ++ xorBlock (writeI64 civ ++ writeI64 mac) tk := by
    simp only [assembleFileKey, htk16, List.append_assoc, htake, hdrop]
  refine ⟨htake, by rw [hdrop, hciv], by rw [hdrop, hmac], hkey, ?_, ?_⟩
  · rw [hkey]; exact take_append_of_length _ _ _ h
  · rw [hkey]; exact drop_append_of_length _ _ _ h

/-- C2 witness: the key layout at a concrete transfer key, IV and MAC. -/
theorem assembleFileKey_witness :
    (assembleFileKey (List.replicate 16 7) 5 9).take 16 = List.replicate 16 7 :=
  (assembleFileKey_spec (List.replicate 16 7) 5 9 (by decide)).2.2.2.2.1

/-! ## C6 — `REQ_FAILURE` dispositions -/

/-- C6 counterexample: a 509 response whose content type is text/html on an
`http:` URL fails the transfer with `EAGAIN` (the implicit-HTTPS-upgrade
check runs first), not with `EOVERQUOTA` as the claim states for every 509. -/
theorem handleFailure_html_ce :
    handleFailure 509 true true 7 false false = FailureOutcome.failT API_EAGAIN 0 ∧
    API_EAGAIN ≠ API_EOVERQUOTA := by
  refine ⟨by decide, by decide⟩

/-- C6 (amended): unless the response is the implicit-HTTPS-upgrade case
(text/html content type on an `http:` URL), a failed request is handled by
status: 509 fails the transfer with `EOVERQUOTA` and a backoff of
`timeleft * 10` deciseconds when `timeleft > 0`, else the client default;
429 re-arms the request with a 0.5 s backoff; 503 on non-RAID re-arms with a
5 s backoff; 403, 404 and 503-on-RAID attempt RAID recovery and fail the
transfer with `EAGAIN` when it is not possible. -/
theorem handleFailure_spec (httpstatus timeleft : Int)
    (htmlCt urlHttp isRaid recovery : Bool)
    (hupgrade : ¬(httpstatus ≠ 0 ∧ htmlCt = true ∧ urlHttp = true)) :
    (httpstatus = 509 →
       handleFailure httpstatus htmlCt urlHttp timeleft isRaid recovery
         = .failT API_EOVERQUOTA
             (if timeleft > 0 then timeleft * 10
              else DEFAULT_BW_OVERQUOTA_BACKOFF_SECS * 10)) ∧
    (httpstatus = 429 →
       handleFailure httpstatus htmlCt urlHttp timeleft isRaid recovery = .rearm 5) ∧
    (httpstatus = 503 → isRaid = false →
       handleFailure httpstatus htmlCt urlHttp timeleft isRaid recovery = .rearm 50) ∧
    ((httpstatus = 403 ∨ httpstatus = 404 ∨ (httpstatus = 503 ∧ isRaid = true)) →
       (tryRaidRecoveryFromHttpGetError isRaid recovery = false →
          handleFailure httpstatus htmlCt urlHttp timeleft isRaid recovery
            = .failT API_EAGAIN 0) ∧
       (tryRaidRecoveryFromHttpGetError isRaid recovery = true →
          handleFailure httpstatus htmlCt urlHttp timeleft isRaid recovery
            = .raidRecovered)) := by
  refine ⟨?_, ?_, ?_, ?_⟩
  · rintro rfl
    unfold handleFailure
    rw [if_neg hupgrade, if_pos rfl]
  · rintro rfl
    unfold handleFailure
    rw [if_neg hupgrade, if_neg (by omega), if_pos rfl]
  · rintro rfl rfl
    unfold handleFailure
    rw [if_neg hupgrade, if_neg (by omega), if_neg (by omega),
      if_pos ⟨rfl, by simp⟩]
  · intro hst
    constructor
    · intro hrec
      unfold handleFailure
      rcases hst with rfl | rfl | ⟨rfl, rfl⟩
      · rw [if_neg hupgrade, if_neg (by omega), if_neg (by omega),
          if_neg (by simp), if_pos (Or.inl rfl), if_neg (by simp [hrec])]
      · rw [if_neg hupgrade, if_neg (by omega), if_neg (by omega),
          if_neg (by simp), if_pos (Or.inr (Or.inl rfl)), if_neg (by simp [hrec])]
      · rw [if_neg hupgrade, if_neg (by omega), if_neg (by omega),
          if_neg (by simp), if_pos (Or.inr (Or.inr ⟨rfl, rfl⟩)), if_neg (by simp [hrec])]
    · intro hrec
      unfold handleFailure
      rcases hst with rfl | rfl | ⟨rfl, rfl⟩
      · rw [if_neg hupgrade, if_neg (by omega), if_neg (by omega),
          if_neg (by simp), if_pos (Or.inl rfl), if_pos (by simp [hrec])]
      · rw [if_neg hupgrade, if_neg (by omega), if_neg (by omega),
          if_neg (by simp), if_pos (Or.inr (Or.inl rfl)), if_pos (by simp [hrec])]
      · rw [if_neg hupgrade, if_neg (by omega), if_neg (by omega),
          if_neg (by simp), if_pos (Or.inr (Or.inr ⟨rfl, rfl⟩)), if_pos (by simp [hrec])]

/-- C6 witness: a plain 429 failure re-arms the request with a 0.5 s backoff. -/
theorem handleFailure_witness :
    handleFailure 429 false false 0 false false = FailureOutcome.rearm 5 :=
  (handleFailure_spec 429 0 false false false false (by simp)).2.1 rfl

/-! ## C1 — download completion check -/

theorem checkMetaMac_fst (enc : Bytes → Bytes) (t : Transfer) :
    (checkMetaMacWithMissingLateEntries enc t).1
      = (singleGapSearch enc t || twoGapSearch enc t) := by
  unfold checkMetaMacWithMissingLateEntries
  by_cases h1 : singleGapSearch enc t <;> by_cases h2 : twoGapSearch enc t <;>
    simp [h1, h2]

/-- C1: when `progresscompleted == size`, `checkDownloadTransferFinished`
returns true, and the transfer completes exactly when the size is zero, the
mac-of-macs over `chunkmacs` equals the recorded metamac, or
`checkMetaMacWithMissingLateEntries` succeeds; otherwise `chunkmacs` is
cleared and the transfer fails with `EKEY`.  When `progresscompleted != size`
it returns false and changes nothing. -/
theorem checkDownloadTransferFinished_spec (enc : Bytes → Bytes) (t : Transfer) :
    (t.progresscompleted = t.size →
       (checkDownloadTransferFinished enc t).1 = true ∧
       ((checkDownloadTransferFinished enc t).2.2 = some TransferEnd.completedEnd ↔
          (t.size = 0 ∨ macsmac enc t.chunkmacs = t.metamac ∨
           (checkMetaMacWithMissingLateEntries enc t).1 = true)) ∧
       (¬(t.size = 0 ∨ macsmac enc t.chunkmacs = t.metamac ∨
           (checkMetaMacWithMissingLateEntries enc t).1 = true) →
          (checkDownloadTransferFinished enc t).2.2
              = some (TransferEnd.failedEnd API_EKEY) ∧
          (checkDownloadTransferFinished enc t).2.1.chunkmacs = [])) ∧
    (t.progresscompleted ≠ t.size →
       checkDownloadTransferFinished enc t = (false, t, none)) := by
  have hfst := checkMetaMac_fst enc t
  constructor
  · intro hpc
    by_cases h0 : t.progresscompleted = 0
    · have hsz : t.size = 0 := by omega
      have hres : checkDownloadTransferFinished enc t = (true, t, some .completedEnd) := by
        simp only [checkDownloadTransferFinished]
        rw [if_pos hpc]
        simp [h0, hsz]
      exact ⟨by rw [hres], by rw [hres]; simp [hsz], fun hno => absurd (Or.inl hsz) hno⟩
    · have h0' : t.progresscompleted ≠ 0 := h0
      have hsz : t.size ≠ 0 := by omega
      have hs1 : singleGapSearch enc
          { t with currentmetamac := macsmac enc t.chunkmacs, hascurrentmetamac := true }
            = singleGapSearch enc t := rfl
      have hs2 : twoGapSearch enc
          { t with currentmetamac := macsmac enc t.chunkmacs, hascurrentmetamac := true }
            = twoGapSearch enc t := rfl
      by_cases hm : macsmac enc t.chunkmacs = t.metamac
      · have hres : checkDownloadTransferFinished enc t
            = (true, { t with currentmetamac := macsmac enc t.chunkmacs,
                              hascurrentmetamac := true }, some .completedEnd) := by
          simp only [checkDownloadTransferFinished]
          rw [if_pos hpc]
          simp [h0', hm]
        exact ⟨by rw [hres], by rw [hres]; simp [hm],
          fun hno => absurd (Or.inr (Or.inl hm)) hno⟩
      · by_cases hg1 : singleGapSearch enc t = true
        · have hres : checkDownloadTransferFinished enc t
              = (true, adoptCorrectMac enc
                  { t with currentmetamac := macsmac enc t.chunkmacs,
                           hascurrentmetamac := true }, some .completedEnd) := by
            simp only [checkDownloadTransferFinished, checkMetaMacWithMissingLateEntries]
            rw [if_pos hpc]
            simp [h0', hsz, hm, hs1, hg1]
          refine ⟨by rw [hres], by rw [hres]; simp [hfst, hg1],
            fun hno => absurd (Or.inr (Or.inr (by rw [hfst]; simp [hg1]))) hno⟩
        · by_cases hg2 : twoGapSearch enc t = true
          · have hres : checkDownloadTransferFinished enc t
                = (true, adoptCorrectMac enc
                    { t with currentmetamac := macsmac enc t.chunkmacs,
                             hascurrentmetamac := true }, some .completedEnd) := by
              simp only [checkDownloadTransferFinished, checkMetaMacWithMissingLateEntries]
              rw [if_pos hpc]
              simp [h0', hsz, hm, hs1, hs2, hg1, hg2]
            refine ⟨by rw [hres], by rw [hres]; simp [hfst, hg2],
              fun hno => absurd (Or.inr (Or.inr (by rw [hfst]; simp [hg2]))) hno⟩
          · have hres : checkDownloadTransferFinished enc t
                = (true, { t with currentmetamac := macsmac enc t.chunkmacs,
                                  hascurrentmetamac := true, chunkmacs := [] },
                   some (.failedEnd API_EKEY)) := by
              simp only [checkDownloadTransferFinished, checkMetaMacWithMissingLateEntries]
              rw [if_pos hpc]
              simp [h0', hsz, hm, hs1, hs2, hg1, hg2]
            refine ⟨by rw [hres], ?_, fun _ => ⟨by rw [hres], by rw [hres]⟩⟩
            rw [hres, hfst]
            simp [hm, hsz, hg1, hg2]
  · intro hpc
    simp [checkDownloadTransferFinished, hpc]

/-- C1 witness: a completed zero-byte download finishes successfully. -/
theorem checkDownloadTransferFinished_witness :
    (checkDownloadTransferFinished enc0 tZero).2.2 = some TransferEnd.completedEnd :=
  ((checkDownloadTransferFinished_spec enc0 tZero).1 rfl).2.1.mpr (Or.inl rfl)

/-! ## C7 — errorcount threshold and resets -/

/-- C7 counterexample: a tick on a fully-downloaded cached GET completes the
transfer successfully even though `errorcount` is 5, refuting "on every
scheduler tick, if errorcount exceeds 4 the transfer fails with the last
recorded error". -/
theorem doioGate_errorcount_ce :
    (5 : Nat) > 4 ∧
    doioGate enc0 true true { errorcount := 5, lasterror := API_EREAD } tCached
      = TickOutcome.completed := by
  refine ⟨by omega, by decide⟩

/-- C7 (amended): on a tick that reaches connection servicing (no pending-
completion path applies and the connections exist), `errorcount > 4` fails
the transfer with the last recorded error; `errorcount` is reset to 0 by a
successful synchronous chunk write and by upload-token receipt, and by a
PUT connection finishing its chunks without a token. -/
theorem errorcount_spec (enc : Bytes → Bytes) (st : SlotState) (t : Transfer)
    (atob : Bytes → Bytes) (macsmacI : ChunkMacs → Int)
    (reqs : List (Option UploadReq)) (i : Nat) (r : UploadReq)
    (rf : Bool) (ec : Nat) (le : Int) :
    (¬(t.size ≠ 0 ∧ t.progresscompleted = t.size) →
     ¬(t.ttype = .PUT ∧ t.ultoken.isSome = true) →
     st.errorcount > 4 →
     doioGate enc true true st t = .failedT st.lasterror) ∧
    (decryptedSyncWrite true rf ec le).2.1 = 0 ∧
    (r.inBody = [] →
       (putSuccessStep atob macsmacI reqs i r t ec le).outcome = .chunkOk →
       (putSuccessStep atob macsmacI reqs i r t ec le).errorcount = 0) ∧
    (r.inBody.length = UPLOADTOKENLEN →
       (r.inBody.getLast? = some 1 ∨ (atob r.inBody).length = OLDUPLOADTOKENLEN) →
       (putSuccessStep atob macsmacI reqs i r t ec le).errorcount = 0) := by
  refine ⟨?_, rfl, ?_, ?_⟩
  · intro h1 h2 hec
    unfold doioGate
    rw [if_neg, if_neg (by simp), if_pos hec]
    rintro (h | h | h)
    · exact h (by simp)
    · exact h1 h
    · exact h2 h
  · intro h0 hout
    simp only [putSuccessStep] at hout ⊢
    rw [if_neg (by simp [h0])] at hout ⊢
    split
    · rename_i hc
      rw [if_pos hc] at hout
      simp at hout
    · rfl
  · intro hlen htok
    have hne : r.inBody ≠ [] := by
      intro h
      rw [h] at hlen
      simp [UPLOADTOKENLEN] at hlen
    have htk : (decide (r.inBody.getLast? = some 1)
        || decide ((atob r.inBody).length = OLDUPLOADTOKENLEN)) = true := by
      rcases htok with h | h <;> simp [h]
    simp only [putSuccessStep]
    rw [if_pos hne, if_pos hlen, if_pos htk]

/-- C7 witness: with the early paths inapplicable and `errorcount = 5`, the
tick fails the transfer with the last recorded error. -/
theorem errorcount_witness :
    doioGate enc0 true true { errorcount := 5, lasterror := API_EREAD } tMid
      = TickOutcome.failedT API_EREAD := by
  have h := (errorcount_spec enc0 { errorcount := 5, lasterror := API_EREAD } tMid
    id (fun _ => 0) [] 0 rOther true 0 0).1
  exact h (by decide) (by decide) (by decide)

/-! ## C3 — PUT `REQ_SUCCESS`: token detection and MAC merging -/

theorem includeStep_progress (reqs : List (Option UploadReq)) (i : Nat)
    (L : List Nat) (t : Transfer) :
    (L.foldl
      (fun acc j =>
        if j ≠ i then
          match reqs[j]? with
          | some (some r) =>
            if otherStatusCounts r.status then
              { acc with progresscompleted := acc.progresscompleted + r.size,
                         chunkmacs := finishedUploadChunks acc.chunkmacs r.mChunkmacs }
            else acc
          | _ => acc
        else acc)
      t).progresscompleted
    = t.progresscompleted
        + ((L.filter (connectionCounts reqs i)).map (reqSizeAt reqs)).sum := by
  induction L generalizing t with
  | nil => simp
  | cons j L ih =>
    rw [List.foldl_cons, ih]
    by_cases hji : j ≠ i
    · cases hr : reqs[j]? with
      | none =>
        have hc : connectionCounts reqs i j = false := by
          simp [connectionCounts, hr]
        simp [hr, List.filter_cons, hc]
      | some o =>
        cases o with
        | none =>
          have hc : connectionCounts reqs i j = false := by
            simp [connectionCounts, hr]
          simp [hr, List.filter_cons, hc]
        | some r =>
          by_cases hst : otherStatusCounts r.status = true
          · have hc : connectionCounts reqs i j = true := by
              simp [connectionCounts, hji, hr, hst]
            simp [hji, hr, hst, List.filter_cons, hc, reqSizeAt]
            omega
          · have hc : connectionCounts reqs i j = false := by
              simp [connectionCounts, hr, hst]
            simp [hr, hst, List.filter_cons, hc]
    · have hc : connectionCounts reqs i j = false := by
        simp [connectionCounts, hji]
      simp [hji, List.filter_cons, hc]

theorem includeStep_chunkmacs (reqs : List (Option UploadReq)) (i : Nat)
    (L : List Nat) (t : Transfer) :
    (L.foldl
      (fun acc j =>
        if j ≠ i then
          match reqs[j]? with
          | some (some r) =>
            if otherStatusCounts r.status then
              { acc with progresscompleted := acc.progresscompleted + r.size,
                         chunkmacs := finishedUploadChunks acc.chunkmacs r.mChunkmacs }
            else acc
          | _ => acc
        else acc)
      t).chunkmacs
    = (L.filter (connectionCounts reqs i)).foldl
        (fun m j => finishedUploadChunks m (reqMacsAt reqs j)) t.chunkmacs := by
  induction L generalizing t with
  | nil => simp
  | cons j L ih =>
    rw [List.foldl_cons, ih]
    by_cases hji : j ≠ i
    · cases hr : reqs[j]? with
      | none =>
        have hc : connectionCounts reqs i j = false := by
          simp [connectionCounts, hr]
        simp [hr, List.filter_cons, hc]
      | some o =>
        cases o with
        | none =>
          have hc : connectionCounts reqs i j = false := by
            simp [connectionCounts, hr]
          simp [hr, List.filter_cons, hc]
        | some r =>
          by_cases hst : otherStatusCounts r.status = true
          · have hc : connectionCounts reqs i j = true := by
              simp [connectionCounts, hji, hr, hst]
            simp [hji, hr, hst, List.filter_cons, hc, reqMacsAt]
          · have hc : connectionCounts reqs i j = false := by
              simp [connectionCounts, hr, hst]
            simp [hr, hst, List.filter_cons, hc]
    · have hc : connectionCounts reqs i j = false := by
        simp [connectionCounts, hji]
      simp [hji, List.filter_cons, hc]

theorem includeStep_ultoken (reqs : List (Option UploadReq)) (i : Nat)
    (L : List Nat) (t : Transfer) :
    (L.foldl
      (fun acc j =>
        if j ≠ i then
          match reqs[j]? with
          | some (some r) =>
            if otherStatusCounts r.status then
              { acc with progresscompleted := acc.progresscompleted + r.size,
                         chunkmacs := finishedUploadChunks acc.chunkmacs r.mChunkmacs }
            else acc
          | _ => acc
        else acc)
      t).ultoken = t.ultoken := by
  induction L generalizing t with
  | nil => rfl
  | cons j L ih =>
    rw [List.foldl_cons, ih]
    by_cases hji : j ≠ i
    · cases hr : reqs[j]? with
      | none => simp [hr]
      | some o =>
        cases o with
        | none => simp [hr]
        | some r =>
          by_cases hst : otherStatusCounts r.status = true
          · simp [hji, hr, hst]
          · simp [hr, hst]
    · simp [hji]

theorem uploadErrorStep_spec (r : UploadReq) (t : Transfer) (ec : Nat) (le : Int) :
    uploadErrorConclusion (uploadErrorStep r t ec le) r ec := by
  unfold uploadErrorConclusion
  constructor
  · intro he
    simp [uploadErrorStep, he]
  · intro he
    simp only [uploadErrorStep, mappedUploadError, Bool.and_eq_true]
    rw [if_neg he]
    by_cases hd : atoiBytes r.inBody = DAEMON_EFAILED
        ∨ (r.contenttypeHtml = true ∧ r.posturlHttp = true)
    · rw [if_pos hd, if_pos hd]
    · rw [if_neg hd, if_neg hd]

/-- C3: for an upload connection in state `SUCCESS` with a non-empty response
body: a 36-byte body that is a valid token (new-style when its last byte is
1, otherwise base64-decoding to 27 bytes) takes the completion path, merging
— via `finishedUploadChunks`, highest connection first — the chunk MACs of
every other connection still `INFLIGHT`, `SUCCESS` or `FAILURE` and adding
their sizes to `progresscompleted` before the final mac-of-macs; a body that
is not a valid token is parsed as a numeric error and the transfer fails with
the mapped error, except `API_EKEY`, which only increments `errorcount` and
re-prepares the chunk. -/
theorem putSuccessStep_spec (atob : Bytes → Bytes) (macsmacI : ChunkMacs → Int)
    (reqs : List (Option UploadReq)) (i : Nat) (r : UploadReq)
    (t : Transfer) (ec : Nat) (le : Int)
    (_hi : reqs[i]? = some (some r)) (_hsucc : r.status = .SUCCESS)
    (hne : r.inBody ≠ []) :
    (r.inBody.length = UPLOADTOKENLEN →
       ((r.inBody.getLast? = some 1 ∨ (atob r.inBody).length = OLDUPLOADTOKENLEN) →
          (putSuccessStep atob macsmacI reqs i r t ec le).outcome = .completeP ∧
          (putSuccessStep atob macsmacI reqs i r t ec le).t.progresscompleted
            = t.progresscompleted
              + ((mergingConnections reqs i).map (reqSizeAt reqs)).sum + r.size ∧
          (putSuccessStep atob macsmacI reqs i r t ec le).t.chunkmacs
            = finishedUploadChunks
                ((mergingConnections reqs i).foldl
                  (fun m j => finishedUploadChunks m (reqMacsAt reqs j)) t.chunkmacs)
                r.mChunkmacs ∧
          (putSuccessStep atob macsmacI reqs i r t ec le).t.ultoken
            = some (if r.inBody.getLast? = some 1 then r.inBody else atob r.inBody)) ∧
       (¬(r.inBody.getLast? = some 1 ∨ (atob r.inBody).length = OLDUPLOADTOKENLEN) →
          uploadErrorConclusion (putSuccessStep atob macsmacI reqs i r t ec le) r ec)) ∧
    (r.inBody.length ≠ UPLOADTOKENLEN →
       uploadErrorConclusion (putSuccessStep atob macsmacI reqs i r t ec le) r ec) := by
  constructor
  · intro hlen
    constructor
    · intro htok
      have htk : (decide (r.inBody.getLast? = some 1)
          || decide ((atob r.inBody).length = OLDUPLOADTOKENLEN)) = true := by
        rcases htok with h | h <;> simp [h]
      have hstep : putSuccessStep atob macsmacI reqs i r t ec le
          = { outcome := .completeP,
              t := { (includeOtherConnections reqs i
                      { t with ultoken := some (if r.inBody.getLast? = some 1
                                                then r.inBody else atob r.inBody),
                               failcount := 0 }) with
                     chunkmacs := finishedUploadChunks
                       (includeOtherConnections reqs i
                         { t with ultoken := some (if r.inBody.getLast? = some 1
                                                   then r.inBody else atob r.inBody),
                                  failcount := 0 }).chunkmacs r.mChunkmacs,
                     progresscompleted := (includeOtherConnections reqs i
                       { t with ultoken := some (if r.inBody.getLast? = some 1
                                                 then r.inBody else atob r.inBody),
                                failcount := 0 }).progresscompleted + r.size,
                     filekey := assembleFileKey
                       (includeOtherConnections reqs i
                         { t with ultoken := some (if r.inBody.getLast? = some 1
                                                   then r.inBody else atob r.inBody),
                                  failcount := 0 }).transferkey
                       (includeOtherConnections reqs i
                         { t with ultoken := some (if r.inBody.getLast? = some 1
                                                   then r.inBody else atob r.inBody),
                                  failcount := 0 }).ctriv
                       (macsmacI (finishedUploadChunks
                         (includeOtherConnections reqs i
                           { t with ultoken := some (if r.inBody.getLast? = some 1
                                                     then r.inBody else atob r.inBody),
                                    failcount := 0 }).chunkmacs r.mChunkmacs)) },
              errorcount := 0, lasterror := le, reqStatus := .SUCCESS } := by
        simp only [putSuccessStep]
        rw [if_pos hne, if_pos hlen, if_pos htk]
      have hprog := includeStep_progress reqs i ((List.range reqs.length).reverse)
        { t with ultoken := some (if r.inBody.getLast? = some 1
                                  then r.inBody else atob r.inBody), failcount := 0 }
      have hmacs := includeStep_chunkmacs reqs i ((List.range reqs.length).reverse)
        { t with ultoken := some (if r.inBody.getLast? = some 1
                                  then r.inBody else atob r.inBody), failcount := 0 }
      have hult := includeStep_ultoken reqs i ((List.range reqs.length).reverse)
        { t with ultoken := some (if r.inBody.getLast? = some 1
                                  then r.inBody else atob r.inBody), failcount := 0 }
      refine ⟨by rw [hstep], ?_, ?_, ?_⟩
      · rw [hstep]
        show (includeOtherConnections reqs i _).progresscompleted + r.size = _
        rw [show (includeOtherConnections reqs i
            { t with ultoken := some (if r.inBody.getLast? = some 1
                                      then r.inBody else atob r.inBody),
                     failcount := 0 }).progresscompleted
          = t.progresscompleted
            + ((mergingConnections reqs i).map (reqSizeAt reqs)).sum from hprog]
      · rw [hstep]
        show finishedUploadChunks (includeOtherConnections reqs i _).chunkmacs r.mChunkmacs = _
        rw [show (includeOtherConnections reqs i
            { t with ultoken := some (if r.inBody.getLast? = some 1
                                      then r.inBody else atob r.inBody),
                     failcount := 0 }).chunkmacs
          = (mergingConnections reqs i).foldl
              (fun m j => finishedUploadChunks m (reqMacsAt reqs j)) t.chunkmacs from hmacs]
      · rw [hstep]
        show (includeOtherConnections reqs i _).ultoken = _
        rw [show (includeOtherConnections reqs i
            { t with ultoken := some (if r.inBody.getLast? = some 1
                                      then r.inBody else atob r.inBody),
                     failcount := 0 }).ultoken
          = some (if r.inBody.getLast? = some 1 then r.inBody else atob r.inBody)
          from hult]
    · intro htok
      have htk : (decide (r.inBody.getLast? = some 1)
          || decide ((atob r.inBody).length = OLDUPLOADTOKENLEN)) = false := by
        push_neg at htok
        simp [htok.1, htok.2]
      have hstep : putSuccessStep atob macsmacI reqs i r t ec le
          = uploadErrorStep r { t with ultoken := none } ec le := by
        simp only [putSuccessStep]
        rw [if_pos hne, if_pos hlen, if_neg (by simp [htk])]
      rw [hstep]
      exact uploadErrorStep_spec r _ ec le
  · intro hlen
    have hstep : putSuccessStep atob macsmacI reqs i r t ec le
        = uploadErrorStep r t ec le := by
      simp only [putSuccessStep]
      rw [if_pos hne, if_neg hlen]
    rw [hstep]
    exact uploadErrorStep_spec r t ec le

/-- C3 witness: a new-style token on connection 0, with connection 1 still
in flight, takes the completion path. -/
theorem putSuccessStep_witness :
    (putSuccessStep id (fun _ => 0) reqsW 0 rToken tUp 0 0).outcome
      = PutOutcome.completeP := by
  have h := (putSuccessStep_spec id (fun _ => 0) reqsW 0 rToken tUp 0 0
    (by decide) (by decide) (by decide)).1 (by decide)
  exact (h.1 (Or.inl (by decide))).1

/-! ## C5 — legacy MAC gap recovery -/

theorem singleGapSearch_iff (enc : Bytes → Bytes) (t : Transfer) :
    singleGapSearch enc t = true ↔ SingleGapMatch enc t := by
  unfold singleGapSearch SingleGapMatch
  simp only [List.any_eq_true, List.mem_range, Bool.and_eq_true, decide_eq_true_eq]
  constructor
  · rintro ⟨cb, hcb, l, hl, hle, hmac⟩
    exact ⟨t.chunkmacs.length - (cb + 1), l + 1, by omega, by omega, by omega,
      by omega, by omega, hmac⟩
  · rintro ⟨s1, l1, h1, h2, h3, h4, h5, hmac⟩
    refine ⟨t.chunkmacs.length - 1 - s1, by omega, l1 - 1, by omega, ?_⟩
    have ha : t.chunkmacs.length - (t.chunkmacs.length - 1 - s1 + 1) = s1 := by omega
    have hb : l1 - 1 + 1 = l1 := by omega
    rw [ha, hb]
    exact ⟨by omega, hmac⟩

theorem twoGapSearch_iff (enc : Bytes → Bytes) (t : Transfer) :
    twoGapSearch enc t = true ↔ TwoGapMatch enc t := by
  unfold twoGapSearch TwoGapMatch
  simp only [List.any_eq_true, List.mem_range, Bool.and_eq_true, decide_eq_true_eq]
  constructor
  · rintro ⟨s1o, hs1o, l1o, hl1o, hle1, s2o, hs2o, l2o, hl2o, hle2, hmac⟩
    refine ⟨t.chunkmacs.length - min 40 t.chunkmacs.length + s1o, l1o + 1,
      t.chunkmacs.length - min 40 t.chunkmacs.length + s1o + (l1o + 1) + 1 + s2o,
      l2o + 1, by omega, by omega, by omega, by omega, by omega, by omega,
      by omega, by omega, by omega, by omega, hmac⟩
  · rintro ⟨s1, l1, s2, l2, h1, h2, h3, h4, h5, h6, h7, h8, h9, h10, hmac⟩
    have hfin : min 40 t.chunkmacs.length ≤ t.chunkmacs.length := by omega
    refine ⟨s1 - (t.chunkmacs.length - min 40 t.chunkmacs.length), by omega,
      l1 - 1, by omega, ?_⟩
    have ha : t.chunkmacs.length - min 40 t.chunkmacs.length
        + (s1 - (t.chunkmacs.length - min 40 t.chunkmacs.length)) = s1 := by omega
    have hb : l1 - 1 + 1 = l1 := by omega
    rw [ha, hb]
    refine ⟨by omega, s2 - (s1 + l1 + 1), by omega, l2 - 1, by omega, ?_⟩
    have hc : s1 + l1 + 1 + (s2 - (s1 + l1 + 1)) = s2 := by omega
    have hd : l2 - 1 + 1 = l2 := by omega
    rw [hc, hd]
    exact ⟨by omega, hmac⟩

/-- C5: `checkMetaMacWithMissingLateEntries` returns true exactly when a
single gap (start in the last `min(96,N)` entries, length in `[1,64]`) or two
separated gaps (within the last `min(40,N)` entries, lengths in `[1,16]`)
omitted from the mac-of-macs reproduce the recorded metamac; on success both
`metamac` and `currentmetamac` are set to the full `macsmac` of `chunkmacs`. -/
theorem checkMetaMacWithMissingLateEntries_spec (enc : Bytes → Bytes) (t : Transfer) :
    ((checkMetaMacWithMissingLateEntries enc t).1 = true ↔
       (SingleGapMatch enc t ∨ TwoGapMatch enc t)) ∧
    ((checkMetaMacWithMissingLateEntries enc t).1 = true →
       (checkMetaMacWithMissingLateEntries enc t).2.metamac = macsmac enc t.chunkmacs ∧
       (checkMetaMacWithMissingLateEntries enc t).2.currentmetamac
         = macsmac enc t.chunkmacs) := by
  constructor
  · rw [checkMetaMac_fst enc t, Bool.or_eq_true, singleGapSearch_iff, twoGapSearch_iff]
  · intro h
    unfold checkMetaMacWithMissingLateEntries at h ⊢
    by_cases h1 : singleGapSearch enc t <;> by_cases h2 : twoGapSearch enc t <;>
      simp [h1, h2, adoptCorrectMac] at h ⊢

/-- C5 witness: a metamac recorded with the last chunk-MAC entry missing is
recovered, and the correct full mac-of-macs is adopted. -/
theorem checkMetaMac_witness :
    (checkMetaMacWithMissingLateEntries enc0 tGap).2.metamac
        = macsmac enc0 tGap.chunkmacs ∧
    (checkMetaMacWithMissingLateEntries enc0 tGap).2.currentmetamac
        = macsmac enc0 tGap.chunkmacs :=
  (checkMetaMacWithMissingLateEntries_spec enc0 tGap).2 (by decide)

/-! ## C10 — `toggleport` -/

theorem take_append_add {α : Type} (xs ys : List α) (k : Nat) :
    (xs ++ ys).take (xs.length + k) = xs ++ ys.take k := by
  rw [List.take_append_eq_append_take]
  have h1 : xs.take (xs.length + k) = xs := List.take_of_length_le (by omega)
  have h2 : xs.length + k - xs.length = k := by omega
  rw [h1, h2]

theorem drop_append_add {α : Type} (xs ys : List α) (k : Nat) :
    (xs ++ ys).drop (xs.length + k) = ys.drop k := by
  rw [List.drop_append_eq_append_drop]
  have h1 : xs.drop (xs.length + k) = [] := List.drop_eq_nil_of_le (by omega)
  have h2 : xs.length + k - xs.length = k := by omega
  rw [h1, h2, List.nil_append]

theorem take_append_le {α : Type} (xs ys : List α) (n : Nat) (h : n ≤ xs.length) :
    (xs ++ ys).take n = xs.take n := by
  rw [List.take_append_eq_append_take]
  have h1 : n - xs.length = 0 := by omega
  simp [h1]

theorem findIdxFrom_none_iff (p : Char → Bool) (a : List Char) :
    findIdxFrom p a = none ↔ ∀ x ∈ a, p x = false := by
  induction a with
  | nil => simp [findIdxFrom]
  | cons x xs ih =>
    unfold findIdxFrom
    by_cases hx : p x <;> simp [hx, ih]

theorem findIdxFrom_append_none (p : Char → Bool) (a b : List Char)
    (h : findIdxFrom p a = none) :
    findIdxFrom p (a ++ b) = (findIdxFrom p b).map (· + a.length) := by
  induction a with
  | nil => cases hb : findIdxFrom p b <;> simp [hb]
  | cons x xs ih =>
    rw [List.cons_append]
    simp only [findIdxFrom] at h ⊢
    by_cases hx : p x
    · rw [if_pos hx] at h
      exact absurd h (by simp)
    · rw [if_neg hx] at h ⊢
      have hxs : findIdxFrom p xs = none := by
        cases hfx : findIdxFrom p xs
        · rfl
        · rw [hfx] at h; simp at h
      rw [ih hxs]
      cases hb : findIdxFrom p b with
      | none => simp [hb]
      | some m => simp [hb]; omega

theorem findIdxFrom_decomp (p : Char → Bool) (a : List Char) (n : Nat)
    (h : findIdxFrom p a = some n) :
    ∃ u c v, a = u ++ c :: v ∧ u.length = n ∧ findIdxFrom p u = none ∧ p c = true := by
  induction a generalizing n with
  | nil => simp [findIdxFrom] at h
  | cons x xs ih =>
    unfold findIdxFrom at h
    by_cases hx : p x
    · rw [if_pos hx] at h
      simp at h
      exact ⟨[], x, xs, rfl, by simp [← h], rfl, hx⟩
    · rw [if_neg hx] at h
      cases hfx : findIdxFrom p xs with
      | none => rw [hfx] at h; simp at h
      | some m =>
        rw [hfx] at h
        simp at h
        obtain ⟨u, c, v, hxs, hlen, hnone, hc⟩ := ih m hfx
        refine ⟨x :: u, c, v, by simp [hxs], by simp [hlen, ← h], ?_, hc⟩
        unfold findIdxFrom
        rw [if_neg hx, hnone]
        rfl

/-- Inserting `":8080"` before the first `/` of a colon-free `http:` URL and
toggling again removes exactly the inserted port, restoring the URL. -/
theorem toggleport_insert_then_erase (u : List Char) (e : Nat)
    (hhttp : u.take 5 = httpColon)
    (hslash : findFrom '/' u 8 = some e)
    (hcolon : findFrom ':' u 8 = none) :
    toggleport (strInsert u e altPortStr) = u := by
  unfold findFrom at hslash hcolon
  have hcolon' : findIdxFrom (fun x => x = ':') (u.drop 8) = none := by
    cases hq : findIdxFrom (fun x => x = ':') (u.drop 8)
    · rfl
    · rw [hq] at hcolon; simp at hcolon
  obtain ⟨n, hn, hne⟩ : ∃ n, findIdxFrom (fun x => x = '/') (u.drop 8) = some n
      ∧ n + 8 = e := by
    cases hq : findIdxFrom (fun x => x = '/') (u.drop 8)
    · rw [hq] at hslash; simp at hslash
    · rw [hq] at hslash
      simp at hslash
      exact ⟨_, rfl, hslash⟩
  obtain ⟨a, c, v, hdrop, hlen, hanone, hc⟩ := findIdxFrom_decomp _ _ _ hn
  have hcslash : c = '/' := by simpa using hc
  subst hcslash
  have hacolon : findIdxFrom (fun x => x = ':') a = none := by
    rw [findIdxFrom_none_iff]
    intro x hx
    have hxmem : x ∈ u.drop 8 := by rw [hdrop]; exact List.mem_append_left _ hx
    exact (findIdxFrom_none_iff _ _).mp hcolon' x hxmem
  have hulen : 8 < u.length := by
    have hne' : u.drop 8 ≠ [] := by rw [hdrop]; simp
    have := List.length_drop 8 u
    by_contra hcon
    push_neg at hcon
    exact hne' (List.drop_eq_nil_of_le (by omega))
  have htk8 : (u.take 8).length = 8 := by
    rw [List.length_take]
    omega
  have hu : u = u.take 8 ++ (a ++ '/' :: v) := by
    rw [← hdrop]
    exact (List.take_append_drop 8 u).symm
  have hue : u.take e = u.take 8 ++ a := by
    conv_lhs => rw [hu]
    rw [show e = (u.take 8).length + a.length from by omega]
    rw [take_append_add]
    rw [take_append_of_length _ _ _ rfl]
  have hde : u.drop e = '/' :: v := by
    conv_lhs => rw [hu]
    rw [show e = (u.take 8).length + a.length from by omega]
    rw [drop_append_add]
    rw [drop_append_of_length _ _ _ rfl]
  have hw : strInsert u e altPortStr = u.take 8 ++ (a ++ (altPortStr ++ '/' :: v)) := by
    unfold strInsert
    rw [hue, hde]
    simp [List.append_assoc]
  have hwtake : (strInsert u e altPortStr).take 5 = httpColon := by
    rw [hw, take_append_le _ _ 5 (by omega), List.take_take]
    simpa using hhttp
  have hwdrop : (strInsert u e altPortStr).drop 8 = a ++ (altPortStr ++ '/' :: v) := by
    rw [hw]
    exact drop_append_of_length _ _ _ htk8
  have haltslash : findIdxFrom (fun x => x = '/') altPortStr = none := by decide
  have haltcolon : findIdxFrom (fun x => x = ':') altPortStr = some 0 := by decide
  have hfw : findFrom '/' (strInsert u e altPortStr) 8 = some (e + 5) := by
    unfold findFrom
    rw [hwdrop, findIdxFrom_append_none _ _ _ hanone,
      findIdxFrom_append_none _ _ _ haltslash]
    have hslv : findIdxFrom (fun x => x = '/') ('/' :: v) = some 0 := by
      unfold findIdxFrom
      simp
    rw [hslv]
    simp only [Option.map_some']
    congr 1
    have : altPortStr.length = 5 := by decide
    omega
  have hfc : findFrom ':' (strInsert u e altPortStr) 8 = some e := by
    unfold findFrom
    have halt0 : findIdxFrom (fun x => x = ':') (altPortStr ++ ('/' :: v)) = some 0 := by
      unfold altPortStr
      rw [List.cons_append]
      unfold findIdxFrom
      simp
    rw [hwdrop, findIdxFrom_append_none _ _ _ hacolon, halt0]
    simp only [Option.map_some']
    congr 1
    omega
  have hw' : strInsert u e altPortStr = (u.take 8 ++ a) ++ (altPortStr ++ '/' :: v) := by
    rw [hw, List.append_assoc]
  have hlen2 : (u.take 8 ++ a).length = e := by
    rw [List.length_append, htk8]
    omega
  have hwtakee : (strInsert u e altPortStr).take e = u.take 8 ++ a := by
    rw [hw']
    exact take_append_of_length _ _ _ hlen2
  have haltlen : altPortStr.length = 5 := by decide
  have hwdrope : (strInsert u e altPortStr).drop (e + 5) = '/' :: v := by
    rw [hw', show e + 5 = (u.take 8 ++ a).length + 5 from by omega, drop_append_add]
    exact drop_append_of_length _ _ _ haltlen
  unfold toggleport
  rw [if_pos hwtake, hfw, hfc]
  dsimp only
  rw [if_pos (by omega : e ≤ e + 5)]
  unfold strErase
  rw [show e + (e + 5 - e) = e + 5 from by omega]
  rw [hwtakee, hwdrope]
  conv_rhs => rw [hu]
  rw [List.append_assoc]

/-- C10 counterexample: toggling twice an `http:` URL with explicit port 1
yields the URL with port 8080, not the original — refuting "applying
toggleport twice to any URL returns the original URL". -/
theorem toggleport_ce : toggleport (toggleport urlPort1) ≠ urlPort1 := by decide

/-- C10 (amended): `toggleport` leaves URLs not beginning with `http:` (and
`http:` URLs with no `/` at index ≥ 8) unchanged; when a `/` is found it
inserts `":8080"` before it if no `:` occurs at index ≥ 8, and otherwise
erases `[portstart, portend)`; applying it twice restores the original for
every URL without a colon at index ≥ 8 (in particular every portless http
URL), though not for URLs carrying an explicit port other than 8080. -/
theorem toggleport_spec (u : List Char) :
    (u.take 5 ≠ httpColon → toggleport u = u) ∧
    (u.take 5 = httpColon →
       (∀ e, findFrom '/' u 8 = some e → findFrom ':' u 8 = none →
          toggleport u = strInsert u e altPortStr) ∧
       (∀ e p, findFrom '/' u 8 = some e → findFrom ':' u 8 = some p → p ≤ e →
          toggleport u = strErase u p (e - p)) ∧
       (findFrom '/' u 8 = none → toggleport u = u)) ∧
    ((u.take 5 ≠ httpColon ∨ findFrom '/' u 8 = none ∨ findFrom ':' u 8 = none) →
       toggleport (toggleport u) = u) := by
  have hid : ∀ v : List Char, v.take 5 = httpColon → findFrom '/' v 8 = none →
      toggleport v = v := by
    intro v hh hf
    unfold toggleport
    rw [if_pos hh, hf]
  have hnh : ∀ v : List Char, v.take 5 ≠ httpColon → toggleport v = v := by
    intro v h
    unfold toggleport
    rw [if_neg h]
  refine ⟨hnh u, ?_, ?_⟩
  · intro hh
    refine ⟨?_, ?_, hid u hh⟩
    · intro e hf hc
      unfold toggleport
      rw [if_pos hh, hf, hc]
    · intro e p hf hc hpe
      unfold toggleport
      rw [if_pos hh, hf, hc]
      dsimp only
      rw [if_pos hpe]
  · rintro (h | h | h)
    · rw [hnh u h, hnh u h]
    · by_cases hh : u.take 5 = httpColon
      · rw [hid u hh h, hid u hh h]
      · rw [hnh u hh, hnh u hh]
    · by_cases hh : u.take 5 = httpColon
      · cases hf : findFrom '/' u 8 with
        | none => rw [hid u hh hf, hid u hh hf]
        | some e =>
          have h1 : toggleport u = strInsert u e altPortStr := by
            unfold toggleport
            rw [if_pos hh, hf, h]
          rw [h1]
          exact toggleport_insert_then_erase u e hh hf h
      · rw [hnh u hh, hnh u hh]

/-- C10 witness: a portless http URL round-trips through a double toggle. -/
theorem toggleport_witness :
    toggleport (toggleport ['h', 't', 't', 'p', ':', '/', '/', 'h', '/', 'x'])
      = ['h', 't', 't', 'p', ':', '/', '/', 'h', '/', 'x'] :=
  (toggleport_spec _).2.2 (Or.inr (Or.inr (by decide)))

/-! ## C9 — LocalNode record round-trip -/

theorem readString_writeString (s rest : Bytes) (h : s.length < 2 ^ 16) :
    readString (writeString s ++ rest) = some (s, rest) := by
  unfold readString writeString
  rw [List.append_assoc, readU_toLE _ _ _ (by
    have h2 : (256 : Nat) ^ 2 = 2 ^ 16 := by norm_num
    omega)]
  exact readBytesN_append _ _ _ rfl

theorem readBytesN_one (x : Nat) (X : Bytes) :
    readBytesN 1 (x :: X) = some ([x], X) := by
  have := readBytesN_append [x] X 1 rfl
  simpa using this

theorem readString_nil : readString (toLE 0 2) = some ([], []) := by decide

/-- C9: deserializing the bytes produced by the serializer restores every
claimed field (node type, size, fsid, parent dbid, cloud node handle, local
name, fingerprint crc and mtime, syncable flag, optional shortname) of a
valid record. -/
theorem serializeLocalNode_roundtrip (l : LocalNodeRec) (h : validLocalNodeRec l) :
    ∃ l2, unserializeLocalNode (serializeLocalNode l) = some l2 ∧
      l2.ntype = l.ntype ∧ l2.size = l.size ∧ l2.fsid = l.fsid ∧
      l2.parent_dbid = l.parent_dbid ∧ l2.nodehandle = l.nodehandle ∧
      l2.localname = l.localname ∧ l2.crc = l.crc ∧ l2.mtime = l.mtime ∧
      l2.syncable = l.syncable ∧ l2.shortname = l.shortname := by
  obtain ⟨htype, hsz0, hsz1, hfsid, hdbid, hnh, hlname, _hlb, hcrc, _hcb, hmt,
    hfv, hfold, hshort⟩ := h
  have h88 : (256 : Nat) ^ 8 = 2 ^ 64 := by norm_num
  have h44 : (256 : Nat) ^ 4 = 2 ^ 32 := by norm_num
  have h66 : (256 : Nat) ^ 6 = 2 ^ 48 := by norm_num
  have hfsid' : l.fsid < 256 ^ 8 := by omega
  have hdbid' : l.parent_dbid < 256 ^ 4 := by omega
  have hnh' : l.nodehandle < 256 ^ NODEHANDLE := by
    simp only [NODEHANDLE]
    omega
  have hmt' : l.mtime < 256 ^ 8 := by omega
  have hts : ¬(l.size < 0 ∧ -((FOLDERNODE : Nat) : Int) ≤ l.size) := by
    simp only [FOLDERNODE]
    omega
  have hsyn : (decide ((if l.syncable then (1 : Nat) else 0) = 1)) = l.syncable := by
    cases l.syncable <;> simp
  rcases htype with htf | htd
  · -- FILENODE
    have hfp : l.fingerprintValid = true := hfv htf
    rcases hq : l.shortname with _ | s
    · have hser : serializeLocalNode l
          = writeI64 l.size ++ (toLE l.fsid 8 ++ (toLE l.parent_dbid 4
            ++ (toLE l.nodehandle NODEHANDLE ++ (writeString l.localname
            ++ (l.crc ++ (writeCompressed64 l.mtime
            ++ ((if l.syncable then 1 else 0) :: 1 :: toLE 0 2))))))) := by
        simp only [serializeLocalNode, htf, hfp, hq,
          if_neg (show ¬l.size < 0 by omega)]
        simp [List.append_assoc]
      have hlen : ¬((writeI64 l.size ++ (toLE l.fsid 8 ++ (toLE l.parent_dbid 4
            ++ (toLE l.nodehandle NODEHANDLE ++ (writeString l.localname
            ++ (l.crc ++ (writeCompressed64 l.mtime
            ++ ((if l.syncable then 1 else 0) :: 1 :: toLE 0 2)))))))).length
          < 8 + 8 + 4 + NODEHANDLE + 2) := by
        simp [writeI64_length, toLE_length, writeString, NODEHANDLE]
        omega
      have hb1 : -(2 ^ 63 : Int) ≤ l.size := by omega
      have huns : unserializeLocalNode (serializeLocalNode l) = some
          { ntype := FILENODE, size := l.size, fsid := l.fsid,
            parent_dbid := l.parent_dbid, nodehandle := l.nodehandle,
            localname := l.localname, crc := l.crc, mtime := l.mtime,
            fingerprintValid := decide ¬(l.mtime = 0),
            syncable := decide ((if l.syncable then (1 : Nat) else 0) = 1),
            shortname := none } := by
        rw [hser]
        unfold unserializeLocalNode
        rw [if_neg hlen, readI64_writeI64 _ _ hb1 hsz1]
        try dsimp only
        rw [if_neg hts]
        try dsimp only
        rw [readU_toLE _ _ _ hfsid']
        try dsimp only
        rw [readU_toLE _ _ _ hdbid']
        try dsimp only
        rw [readU_toLE _ _ _ hnh']
        try dsimp only
        rw [readString_writeString _ _ hlname]
        try dsimp only
        rw [if_pos (rfl : FILENODE = FILENODE)]
        rw [readBytesN_append _ _ _ hcrc]
        try dsimp only
        rw [if_pos (rfl : FILENODE = FILENODE)]
        rw [readCompressed64_writeCompressed64 _ _ hmt']
        try dsimp only
        rw [if_pos (show ((if l.syncable then (1:Nat) else 0) :: 1 :: toLE 0 2 : Bytes)
          ≠ [] by simp)]
        rw [readBytesN_one]
        try dsimp only
        rw [if_pos (show (1 :: toLE 0 2 : Bytes) ≠ [] by simp)]
        rw [readBytesN_one]
        try dsimp only
        rw [if_pos (show (([(1 : Nat)] : Bytes).headD 0 ≠ 0) by simp)]
        rw [readString_nil]
        try dsimp only
        rw [if_pos (rfl : ([] : Bytes) = [])]
        rfl
      exact ⟨_, huns, htf.symm, rfl, rfl, rfl, rfl, rfl, rfl, rfl, hsyn, rfl⟩
    · have hs := hshort s hq
      have hser : serializeLocalNode l
          = writeI64 l.size ++ (toLE l.fsid 8 ++ (toLE l.parent_dbid 4
            ++ (toLE l.nodehandle NODEHANDLE ++ (writeString l.localname
            ++ (l.crc ++ (writeCompressed64 l.mtime
            ++ ((if l.syncable then 1 else 0) :: 1 :: writeString s))))))) := by
        simp only [serializeLocalNode, htf, hfp, hq,
          if_neg (show ¬l.size < 0 by omega)]
        simp [List.append_assoc]
      have hlen : ¬((writeI64 l.size ++ (toLE l.fsid 8 ++ (toLE l.parent_dbid 4
            ++ (toLE l.nodehandle NODEHANDLE ++ (writeString l.localname
            ++ (l.crc ++ (writeCompressed64 l.mtime
            ++ ((if l.syncable then 1 else 0) :: 1 :: writeString s)))))))).length
          < 8 + 8 + 4 + NODEHANDLE + 2) := by
        simp [writeI64_length, toLE_length, writeString, NODEHANDLE]
        omega
      have hb1 : -(2 ^ 63 : Int) ≤ l.size := by omega
      have hsnread : readString (writeString s) = some (s, []) := by
        have := readString_writeString s [] hs.2.1
        simpa using this
      have huns : unserializeLocalNode (serializeLocalNode l) = some
          { ntype := FILENODE, size := l.size, fsid := l.fsid,
            parent_dbid := l.parent_dbid, nodehandle := l.nodehandle,
            localname := l.localname, crc := l.crc, mtime := l.mtime,
            fingerprintValid := decide ¬(l.mtime = 0),
            syncable := decide ((if l.syncable then (1 : Nat) else 0) = 1),
            shortname := some s } := by
        rw [hser]
        unfold unserializeLocalNode
        rw [if_neg hlen, readI64_writeI64 _ _ hb1 hsz1]
        try dsimp only
        rw [if_neg hts]
        try dsimp only
        rw [readU_toLE _ _ _ hfsid']
        try dsimp only
        rw [readU_toLE _ _ _ hdbid']
        try dsimp only
        rw [readU_toLE _ _ _ hnh']
        try dsimp only
        rw [readString_writeString _ _ hlname]
        try dsimp only
        rw [if_pos (rfl : FILENODE = FILENODE)]
        rw [readBytesN_append _ _ _ hcrc]
        try dsimp only
        rw [if_pos (rfl : FILENODE = FILENODE)]
        rw [readCompressed64_writeCompressed64 _ _ hmt']
        try dsimp only
        rw [if_pos (show ((if l.syncable then (1:Nat) else 0) :: 1 :: writeString s : Bytes)
          ≠ [] by simp)]
        rw [readBytesN_one]
        try dsimp only
        rw [if_pos (show (1 :: writeString s : Bytes) ≠ [] by simp)]
        rw [readBytesN_one]
        try dsimp only
        rw [if_pos (show (([(1 : Nat)] : Bytes).headD 0 ≠ 0) by simp)]
        rw [hsnread]
        try dsimp only
        rw [if_neg hs.1]
        rfl
      exact ⟨_, huns, htf.symm, rfl, rfl, rfl, rfl, rfl, rfl, rfl, hsyn, rfl⟩
  · -- FOLDERNODE
    obtain ⟨hfs0, hfcrc, hfmt⟩ := hfold htd
    have htsf : ((-((FOLDERNODE : Nat) : Int) < 0) ∧
        -((FOLDERNODE : Nat) : Int) ≤ -((FOLDERNODE : Nat) : Int)) := by
      simp [FOLDERNODE]
    rcases hq : l.shortname with _ | s
    · have hser : serializeLocalNode l
          = writeI64 (-((FOLDERNODE : Nat) : Int)) ++ (toLE l.fsid 8
            ++ (toLE l.parent_dbid 4 ++ (toLE l.nodehandle NODEHANDLE
            ++ (writeString l.localname
            ++ ((if l.syncable then 1 else 0) :: 1 :: toLE 0 2))))) := by
        simp only [serializeLocalNode, htd, hq]
        simp [List.append_assoc, FOLDERNODE, FILENODE]
      have hlen : ¬((writeI64 (-((FOLDERNODE : Nat) : Int)) ++ (toLE l.fsid 8
            ++ (toLE l.parent_dbid 4 ++ (toLE l.nodehandle NODEHANDLE
            ++ (writeString l.localname
            ++ ((if l.syncable then 1 else 0) :: 1 :: toLE 0 2)))))).length
          < 8 + 8 + 4 + NODEHANDLE + 2) := by
        simp [writeI64_length, toLE_length, writeString, NODEHANDLE]
        omega
      have huns : unserializeLocalNode (serializeLocalNode l) = some
          { ntype := FOLDERNODE, size := 0, fsid := l.fsid,
            parent_dbid := l.parent_dbid, nodehandle := l.nodehandle,
            localname := l.localname, crc := List.replicate 16 0, mtime := 0,
            fingerprintValid := decide ¬((0 : Nat) = 0),
            syncable := decide ((if l.syncable then (1 : Nat) else 0) = 1),
            shortname := none } := by
        rw [hser]
        unfold unserializeLocalNode
        rw [if_neg hlen,
          readI64_writeI64 _ _ (by simp [FOLDERNODE]) (by simp [FOLDERNODE])]
        try dsimp only
        rw [if_pos htsf]
        try dsimp only
        rw [readU_toLE _ _ _ hfsid']
        try dsimp only
        rw [readU_toLE _ _ _ hdbid']
        try dsimp only
        rw [readU_toLE _ _ _ hnh']
        try dsimp only
        rw [readString_writeString _ _ hlname]
        try dsimp only
        have hnf : ¬((-(-((FOLDERNODE : Nat) : Int))).toNat = FILENODE) := by
          simp [FOLDERNODE, FILENODE]
        rw [if_neg hnf]
        try dsimp only
        rw [if_neg hnf]
        try dsimp only
        rw [if_pos (show ((if l.syncable then (1:Nat) else 0) :: 1 :: toLE 0 2 : Bytes)
          ≠ [] by simp)]
        rw [readBytesN_one]
        try dsimp only
        rw [if_pos (show (1 :: toLE 0 2 : Bytes) ≠ [] by simp)]
        rw [readBytesN_one]
        try dsimp only
        rw [if_pos (show (([(1 : Nat)] : Bytes).headD 0 ≠ 0) by simp)]
        rw [readString_nil]
        try dsimp only
        rw [if_pos (rfl : ([] : Bytes) = [])]
        simp [FOLDERNODE]
      refine ⟨_, huns, htd.symm, hfs0.symm, rfl, rfl, rfl, rfl, hfcrc.symm,
        hfmt.symm, hsyn, rfl⟩
    · have hs := hshort s hq
      have hser : serializeLocalNode l
          = writeI64 (-((FOLDERNODE : Nat) : Int)) ++ (toLE l.fsid 8
            ++ (toLE l.parent_dbid 4 ++ (toLE l.nodehandle NODEHANDLE
            ++ (writeString l.localname
            ++ ((if l.syncable then 1 else 0) :: 1 :: writeString s))))) := by
        simp only [serializeLocalNode, htd, hq]
        simp [List.append_assoc, FOLDERNODE, FILENODE]
      have hlen : ¬((writeI64 (-((FOLDERNODE : Nat) : Int)) ++ (toLE l.fsid 8
            ++ (toLE l.parent_dbid 4 ++ (toLE l.nodehandle NODEHANDLE
            ++ (writeString l.localname
            ++ ((if l.syncable then 1 else 0) :: 1 :: writeString s)))))).length
          < 8 + 8 + 4 + NODEHANDLE + 2) := by
        simp [writeI64_length, toLE_length, writeString, NODEHANDLE]
        omega
      have hsnread : readString (writeString s) = some (s, []) := by
        have := readString_writeString s [] hs.2.1
        simpa using this
      have huns : unserializeLocalNode (serializeLocalNode l) = some
          { ntype := FOLDERNODE, size := 0, fsid := l.fsid,
            parent_dbid := l.parent_dbid, nodehandle := l.nodehandle,
            localname := l.localname, crc := List.replicate 16 0, mtime := 0,
            fingerprintValid := decide ¬((0 : Nat) = 0),
            syncable := decide ((if l.syncable then (1 : Nat) else 0) = 1),
            shortname := some s } := by
        rw [hser]
        unfold unserializeLocalNode
        rw [if_neg hlen,
          readI64_writeI64 _ _ (by simp [FOLDERNODE]) (by simp [FOLDERNODE])]
        try dsimp only
        rw [if_pos htsf]
        try dsimp only
        rw [readU_toLE _ _ _ hfsid']
        try dsimp only
        rw [readU_toLE _ _ _ hdbid']
        try dsimp only
        rw [readU_toLE _ _ _ hnh']
        try dsimp only
        rw [readString_writeString _ _ hlname]
        try dsimp only
        have hnf : ¬((-(-((FOLDERNODE : Nat) : Int))).toNat = FILENODE) := by
          simp [FOLDERNODE, FILENODE]
        rw [if_neg hnf]
        try dsimp only
        rw [if_neg hnf]
        try dsimp only
        rw [if_pos (show ((if l.syncable then (1:Nat) else 0) :: 1 :: writeString s : Bytes)
          ≠ [] by simp)]
        rw [readBytesN_one]
        try dsimp only
        rw [if_pos (show (1 :: writeString s : Bytes) ≠ [] by simp)]
        rw [readBytesN_one]
        try dsimp only
        rw [if_pos (show (([(1 : Nat)] : Bytes).headD 0 ≠ 0) by simp)]
        rw [hsnread]
        try dsimp only
        rw [if_neg hs.1]
        simp [FOLDERNODE]
      refine ⟨_, huns, htd.symm, hfs0.symm, rfl, rfl, rfl, rfl, hfcrc.symm,
        hfmt.symm, hsyn, rfl⟩

/-- C9 witness: a concrete file record with shortname round-trips. -/
theorem serializeLocalNode_roundtrip_witness :
    ∃ l2, unserializeLocalNode (serializeLocalNode fileRec) = some l2 ∧
      l2.ntype = fileRec.ntype ∧ l2.size = fileRec.size ∧ l2.fsid = fileRec.fsid ∧
      l2.parent_dbid = fileRec.parent_dbid ∧ l2.nodehandle = fileRec.nodehandle ∧
      l2.localname = fileRec.localname ∧ l2.crc = fileRec.crc ∧
      l2.mtime = fileRec.mtime ∧ l2.syncable = fileRec.syncable ∧
      l2.shortname = fileRec.shortname :=
  serializeLocalNode_roundtrip fileRec (by
    refine ⟨Or.inl rfl, by decide, by decide, by decide, by decide, by decide,
      by decide, by decide, by decide, by decide, by decide, fun _ => rfl,
      fun hcon => absurd hcon (by decide), ?_⟩
    intro s hsq
    have h99 : s = [99] := by
      have hq := hsq
      simp only [fileRec] at hq
      exact (Option.some.inj hq).symm
    subst h99
    exact ⟨by decide, by decide, by decide⟩)

/-! ## C8 — deserializer rejection behaviour -/

/-- C8: the deserializer rejects inputs shorter than the fixed leading
fields (27 bytes < 28 → failure), but it does NOT return failure when
parseable data remains after the last field: a serialized folder record with
one trailing byte is still accepted — the C++ only guards trailing data with
a debug-build `assert(!r.hasdataleft())` and returns the parsed node in a
release build. -/
theorem unserializeLocalNode_trailing :
    unserializeLocalNode (List.replicate 27 0) = none ∧
    unserializeLocalNode trailingInput ≠ none := by
  exact ⟨by decide, by decide⟩
